import Mathlib

/-!
Shallow embedding of the `ord-plan` event-generation and merge pipeline
(`src/ord_plan`): cron expansion (`services/cron_service.py`), grouping and
merging (`services/event_service.py`), org-mode rendering
(`parsers/org_mode.py`), and date-range warnings (`models/date_range.py`),
together with theorems settling the specification claims.

Python `datetime` values are modelled as natural numbers counting seconds
since 0001-01-01 00:00:00 (proleptic Gregorian; `datetime.toordinal` day 1
is 0001-01-01, which is a Monday).  `date` values are day numbers under the
same origin.  Calendar conversions follow the standard civil-calendar
algorithms, shifted to this origin.
-/

namespace OrdPlan

/-- Seconds in a day. -/
def secPerDay : Nat := 86400

/-- `datetime.date()` — the day number of a datetime (seconds since epoch). -/
def dayOf (t : Nat) : Nat := t / secPerDay

/-- Day number → `(year, month, day)` in the proleptic Gregorian calendar.
Day 0 is 0001-01-01.  Standard civil-from-days algorithm with the era base
shifted so it stays in `Nat`. -/
def civilFromDays (z : Nat) : Nat × Nat × Nat :=
  let zz := z + 306
  let era := zz / 146097
  let doe := zz % 146097
  let yoe := (doe - doe / 1460 + doe / 36524 - doe / 146096) / 365
  let doy := doe - (365 * yoe + yoe / 4 - yoe / 100)
  let mp := (5 * doy + 2) / 153
  let d := doy - (153 * mp + 2) / 5 + 1
  let m := if mp < 10 then mp + 3 else mp - 9
  (if m ≤ 2 then yoe + era * 400 + 1 else yoe + era * 400, m, d)

/-- `(year, month, day)` → day number (inverse of `civilFromDays` on valid
dates).  Standard days-from-civil algorithm, shifted to the 0001-01-01
origin. -/
def daysFromCivil (y m d : Nat) : Nat :=
  let y' := if m ≤ 2 then y - 1 else y
  let era := y' / 400
  let yoe := y' % 400
  let mp := if 2 < m then m - 3 else m + 9
  let doy := (153 * mp + 2) / 5 + d - 1
  let doe := yoe * 365 + yoe / 4 - yoe / 100 + doy
  era * 146097 + doe - 306

/-- Calendar year of a day number. -/
def yearOfDay (z : Nat) : Nat := (civilFromDays z).1

/-- Calendar month of a day number. -/
def monthOfDay (z : Nat) : Nat := (civilFromDays z).2.1

/-- Calendar day-of-month of a day number. -/
def domOfDay (z : Nat) : Nat := (civilFromDays z).2.2

/-- `datetime.weekday()`: Monday = 0 … Sunday = 6.  Day 0 (0001-01-01) is a
Monday, so this is plain remainder. -/
def weekdayOfDay (z : Nat) : Nat := z % 7

/-- Cron day-of-week convention: Sunday = 0 … Saturday = 6. -/
def cronDowOfDay (z : Nat) : Nat := (z + 1) % 7

/-- Whether `y` is a Gregorian leap year. -/
def isLeap (y : Nat) : Bool := y % 4 = 0 && (y % 100 ≠ 0 || y % 400 = 0)

/-- Number of days in month `m` of year `y`. -/
def daysInMonth (y m : Nat) : Nat :=
  if m = 2 then (if isLeap y then 29 else 28)
  else if m = 4 ∨ m = 6 ∨ m = 9 ∨ m = 11 then 30
  else 31

/-- Zero-pad a natural number to at least two digits. -/
def pad2 (n : Nat) : String :=
  if n < 10 then "0" ++ toString n else toString n

/-- Zero-pad a natural number to at least four digits (Python's `%Y`). -/
def pad4 (n : Nat) : String :=
  if n < 10 then "000" ++ toString n
  else if n < 100 then "00" ++ toString n
  else if n < 1000 then "0" ++ toString n
  else toString n

/-- ISO week number of a day number (`strftime("%V")`): the week number of
the Thursday lying in the same Monday-based week, counted within that
Thursday's calendar year. -/
def isoWeekOfDay (z : Nat) : Nat :=
  let thu := z + 3 - weekdayOfDay z
  let jan1 := daysFromCivil (yearOfDay thu) 1 1
  (thu - jan1) / 7 + 1

/-- Year of the Thursday of `z`'s ISO week: the ISO week-numbering year
(`strftime("%G")`).  Used only to state when it differs from `%Y`. -/
def isoWeekYearOfDay (z : Nat) : Nat := yearOfDay (z + 3 - weekdayOfDay z)

/-- Weekday abbreviations as produced by `strftime("%a")` in the C locale,
indexed by `weekdayOfDay` (Monday = 0). -/
def weekdayAbbrev (w : Nat) : String :=
  ["Mon", "Tue", "Wed", "Thu", "Fri", "Sat", "Sun"].getD w "Mon"

/-- `datetime.isoformat()` for a second-resolution datetime:
`YYYY-MM-DDTHH:MM:SS`. -/
def isoformat (t : Nat) : String :=
  let z := dayOf t
  let rem := t % secPerDay
  pad4 (yearOfDay z) ++ "-" ++ pad2 (monthOfDay z) ++ "-" ++ pad2 (domOfDay z)
    ++ "T" ++ pad2 (rem / 3600) ++ ":" ++ pad2 (rem / 60 % 60) ++ ":" ++ pad2 (rem % 60)

/-- Parse a decimal digit character. -/
def digitVal (c : Char) : Option Nat :=
  if c.isDigit then some (c.toNat - 48) else none

/-- Parse an all-digit character list as a decimal number. -/
def parseDigits (cs : List Char) : Option Nat :=
  cs.foldl (fun acc c => do
    let a ← acc
    let d ← digitVal c
    pure (a * 10 + d)) (if cs.isEmpty then none else some 0)

/-- `datetime.fromisoformat` restricted to the shapes this program produces
and reads back: `YYYY-MM-DD`, `YYYY-MM-DD*HH:MM` and `YYYY-MM-DD*HH:MM:SS`
(`*` any single separator character, as accepted by Python).  Date and time
components are range-checked exactly as Python does.  Behaviour of the
external `datetime` library on other inputs is not modelled. -/
def parseIso (s : String) : Option Nat := do
  let cs := s.toList
  let parseDate : List Char → Option Nat := fun l =>
    match l with
    | [y1, y2, y3, y4, '-', m1, m2, '-', d1, d2] => do
      let y ← parseDigits [y1, y2, y3, y4]
      let m ← parseDigits [m1, m2]
      let d ← parseDigits [d1, d2]
      if 1 ≤ y ∧ 1 ≤ m ∧ m ≤ 12 ∧ 1 ≤ d ∧ d ≤ daysInMonth y m then
        pure (daysFromCivil y m d)
      else none
    | _ => none
  match cs.length with
  | 10 => do
    let z ← parseDate cs
    pure (z * secPerDay)
  | 16 => do
    let z ← parseDate (cs.take 10)
    match cs.drop 11 with
    | [h1, h2, ':', n1, n2] => do
      let hh ← parseDigits [h1, h2]
      let mi ← parseDigits [n1, n2]
      if hh ≤ 23 ∧ mi ≤ 59 then pure (z * secPerDay + hh * 3600 + mi * 60) else none
    | _ => none
  | 19 => do
    let z ← parseDate (cs.take 10)
    match cs.drop 11 with
    | [h1, h2, ':', n1, n2, ':', s1, s2] => do
      let hh ← parseDigits [h1, h2]
      let mi ← parseDigits [n1, n2]
      let ss ← parseDigits [s1, s2]
      if hh ≤ 23 ∧ mi ≤ 59 ∧ ss ≤ 59 then
        pure (z * secPerDay + hh * 3600 + mi * 60 + ss)
      else none
    | _ => none
  | _ => none

/-!
### Kernel-computable string utilities

Python's `str.split`, `int(...)` and string comparison are modelled over
the character list of a `String`, so that every definition evaluates inside
the kernel (`String.splitOn`, `String.toNat?` and `String.ltb` are
iterator-based and do not reduce definitionally).
-/

/-- If `cs` starts with `sep`, return the remainder. -/
def dropSub? : List Char → List Char → Option (List Char)
  | [], rest => some rest
  | _ :: _, [] => none
  | s :: ss, c :: cc => if c = s then dropSub? ss cc else none

/-- Split `cs` at every non-overlapping occurrence of the nonempty
separator `sep`, left to right (Python `str.split(sep)`).  `cur` is the
reversed current chunk; `fuel` is a structural counter instantiated at
`cs.length`, which cannot run out for a nonempty separator. -/
def chSplitGo (sep : List Char) : Nat → List Char → List Char → List (List Char)
  | _, [], cur => [cur.reverse]
  | 0, cs, cur => [cur.reverse ++ cs]
  | f + 1, c :: cs, cur =>
    match dropSub? sep (c :: cs) with
    | some rest => cur.reverse :: chSplitGo sep f rest []
    | none => chSplitGo sep f cs (c :: cur)

/-- Python `s.split(sep)` for a nonempty separator. -/
def pySplit (s sep : String) : List String :=
  (chSplitGo sep.toList s.toList.length s.toList []).map String.mk

/-- Python `"sub" in s` for a nonempty pattern: the split produced more
than one part. -/
def pyContainsSub (s sub : String) : Bool := 2 ≤ (pySplit s sub).length

/-- Python `int(s)` on an all-digit string (`str.isdigit` shape), as a
kernel-computable replacement for `String.toNat?`. -/
def pyToNat? (s : String) : Option Nat :=
  s.toList.foldl (fun acc c => do
    let a ← acc
    if c.isDigit then pure (a * 10 + (c.toNat - 48)) else none)
    (if s.toList.isEmpty then none else some 0)

/-- Code-point lexicographic comparison of character lists — the order
both Python and Lean use on strings. -/
def chLt : List Char → List Char → Bool
  | [], [] => false
  | [], _ :: _ => true
  | _ :: _, [] => false
  | a :: as, b :: bs => decide (a.toNat < b.toNat) || (a = b && chLt as bs)

/-- Python `s < t` on strings. -/
def strLtB (s t : String) : Bool := chLt s.toList t.toList

/-- Python `s <= t` on strings. -/
def strLeB (s t : String) : Bool := strLtB s t || s == t

/-- Python exception values that the embedded code can raise. -/
inductive PyErr where
  | valueError (msg : String)
  | typeError (msg : String)
  | attributeError (attr : String)
deriving DecidableEq, Repr

/-- `models/org_event.py` `OrgEvent`: the dataclass fields.  Note there is
no `body` field — the dataclass declares `description`. -/
structure OrgEvent where
  title : String
  level : Nat := 4
  todo_state : Option String := none
  tags : List String := []
  description : Option String := none
deriving DecidableEq, Repr, Inhabited

/-- `models/org_date_node.py` `OrgDateNode`. -/
structure OrgDateNode where
  date : Nat
  existing_events : List OrgEvent := []
  new_events : List OrgEvent := []
deriving DecidableEq, Repr, Inhabited

/-- `OrgDateNode.year` property: `date.strftime("%Y")`. -/
def OrgDateNode.year (n : OrgDateNode) : String := pad4 (yearOfDay (dayOf n.date))

/-- `OrgDateNode.week` property: `date.strftime("%Y-W%V")` — the calendar
year (`%Y`) joined with the ISO week number (`%V`). -/
def OrgDateNode.week (n : OrgDateNode) : String :=
  pad4 (yearOfDay (dayOf n.date)) ++ "-W" ++ pad2 (isoWeekOfDay (dayOf n.date))

/-- `OrgDateNode.day` property: `date.strftime("%Y-%m-%d %a")`. -/
def OrgDateNode.day (n : OrgDateNode) : String :=
  pad4 (yearOfDay (dayOf n.date)) ++ "-" ++ pad2 (monthOfDay (dayOf n.date))
    ++ "-" ++ pad2 (domOfDay (dayOf n.date)) ++ " " ++ weekdayAbbrev (weekdayOfDay (dayOf n.date))

/-- `models/event_rule.py` `EventRule` fields. -/
structure EventRule where
  title : String
  cron : String
  tags : List String := []
  todo_state : Option String := none
  description : Option String := none
deriving DecidableEq, Repr, Inhabited

/-- `models/date_range.py` `DateRange` fields. -/
structure DateRange where
  start_date : Nat
  end_date : Nat
  warnings : List String := []
deriving DecidableEq, Repr, Inhabited

/-!
## Cron expansion (`services/cron_service.py`)

The recurrence engine is the external `croniter` library; it is modelled
from the 5-field grammar documented in the specification (minute, hour,
day-of-month, month, day-of-week; each field `*`, integer, comma-list,
range `a-b`, or step).  A bare `*` field is kept symbolic (matches every
value); all other fields are expanded to their value lists.  When both the
day-of-month and day-of-week fields are restricted they are OR-ed
(standard cron behaviour); no claim depends on this choice.
-/

/-- A parsed 5-field cron expression.  `none` is a bare `*`. -/
structure CronExpr where
  minutes : Option (List Nat)
  hours : Option (List Nat)
  doms : Option (List Nat)
  months : Option (List Nat)
  dows : Option (List Nat)
deriving DecidableEq, Repr

/-- Integers from `lo` to `hi` inclusive. -/
def natRange (lo hi : Nat) : List Nat := List.range' lo (hi + 1 - lo)

/-- Parse one comma-separated item of a cron field into its value list. -/
def parseCronItem (item : String) (lo hi : Nat) : Except String (List Nat) := do
  let (body, step) ← (match pySplit item "/" with
    | [b] => .ok (b, none)
    | [b, st] =>
      (match pyToNat? st with
       | some n => if n = 0 then .error ("invalid step in " ++ item) else .ok (b, some n)
       | none => .error ("invalid step in " ++ item))
    | _ => (.error ("invalid field " ++ item) : Except String (String × Option Nat)))
  let (a, b) ← (match body with
    | "*" => .ok (lo, hi)
    | _ =>
      (match pySplit body "-" with
       | [x] =>
         (match pyToNat? x with
          | some v => .ok (v, if step.isSome then hi else v)
          | none => .error ("invalid value " ++ body))
       | [x, y] =>
         (match pyToNat? x, pyToNat? y with
          | some vx, some vy => .ok (vx, vy)
          | _, _ => .error ("invalid range " ++ body))
       | _ => (.error ("invalid field " ++ body) : Except String (Nat × Nat))))
  if lo ≤ a ∧ a ≤ b ∧ b ≤ hi then
    .ok ((natRange a b).filter (fun v => (v - a) % step.getD 1 = 0))
  else .error ("value out of range in " ++ item)

/-- Parse one cron field (`none` for a bare `*`). -/
def parseCronField (s : String) (lo hi : Nat) : Except String (Option (List Nat)) :=
  if s = "*" then .ok none
  else do
    let lists ← (pySplit s ",").mapM (parseCronItem · lo hi)
    .ok (some lists.flatten)

/-- Parse a 5-field cron expression (the `croniter(...)` constructor).
Field ranges: minute 0-59, hour 0-23, day-of-month 1-31, month 1-12,
day-of-week 0-6. -/
def parseCron (s : String) : Except String CronExpr :=
  match (pySplit s " ").filter (· ≠ "") with
  | [fmi, fhr, fdm, fmo, fdw] => do
    let mi ← parseCronField fmi 0 59
    let hr ← parseCronField fhr 0 23
    let dm ← parseCronField fdm 1 31
    let mo ← parseCronField fmo 1 12
    let dw ← parseCronField fdw 0 6
    .ok ⟨mi, hr, dm, mo, dw⟩
  | _ => .error "Exactly 5 columns has to be specified for iterator expression."

/-- Does field `f` admit value `v`? -/
def fieldMatches (f : Option (List Nat)) (v : Nat) : Bool :=
  match f with
  | none => true
  | some l => l.contains v

/-- Does instant `t` (seconds) satisfy the cron expression?  Instants are
only ever tested at whole minutes. -/
def cronMatches (e : CronExpr) (t : Nat) : Bool :=
  let z := dayOf t
  fieldMatches e.minutes (t / 60 % 60) &&
  fieldMatches e.hours (t / 3600 % 24) &&
  fieldMatches e.months (monthOfDay z) &&
  (match e.doms, e.dows with
   | some dl, some wl => dl.contains (domOfDay z) || wl.contains (cronDowOfDay z)
   | _, _ => fieldMatches e.doms (domOfDay z) && fieldMatches e.dows (cronDowOfDay z))

/-- Search horizon for the next matching instant: four years of minutes,
mirroring the external library's bounded forward search (its failure is the
`StopIteration`/`ValueError` caught by the generation loop). -/
def cronSearchFuel : Nat := 4 * 366 * 1440

/-- Scan whole-minute instants `c, c+60, …` for the first match. -/
def scanNext (e : CronExpr) : Nat → Nat → Option Nat
  | 0, _ => none
  | fuel + 1, c => if cronMatches e c then some c else scanNext e fuel (c + 60)

/-- `croniter.get_next`: the first matching whole-minute instant strictly
after `t`. -/
def getNext (e : CronExpr) (t : Nat) : Option Nat :=
  scanNext e cronSearchFuel ((t / 60 + 1) * 60)

/-- The `OrgEvent` built for one occurrence in
`CronService.generate_events_for_rule`: the instant is smuggled into the
title as `"{rule.title}@@{current_date.isoformat()}"`, and
`rule.todo_state or default_todo_state` follows Python truthiness. -/
def mkRuleEvent (rule : EventRule) (default_todo_state : String) (current : Nat) : OrgEvent :=
  { title := rule.title ++ "@@" ++ isoformat current
    level := 4
    todo_state := some (match rule.todo_state with
      | some s => if s = "" then default_todo_state else s
      | none => default_todo_state)
    tags := rule.tags
    description := rule.description }

/-- The `while current_date <= end_date` loop of
`CronService.generate_events_for_rule`, instrumented to keep each
occurrence's instant (the loop's `current_date`) as the first pair
component; the emitted event list is the second components.  `fuel` is a
structural-recursion counter instantiated at `end_date + 1 - start_date`,
which the loop can never exhaust since `getNext` strictly advances. -/
def genLoopPairs (e : CronExpr) (rule : EventRule) (dr : DateRange) (tds : String) :
    Nat → Nat → List (Nat × OrgEvent) → List (Nat × OrgEvent)
  | fuel, current, events =>
    if current ≤ dr.end_date then
      -- `if current_date >= date_range.start_date: events.append(...)`
      let events' := if dr.start_date ≤ current then
          events ++ [(current, mkRuleEvent rule tds current)]
        else events
      -- `current_date = cron.get_next(datetime)` (break on StopIteration/ValueError)
      match getNext e current with
      | none => events'
      | some next =>
        -- `if len(events) > 10000: break`
        if 10000 < events'.length then events'
        else
          match fuel with
          | 0 => events'
          | f + 1 => genLoopPairs e rule dr tds f next events'
    else events

/-- `CronService.generate_events_for_rule`, instant-instrumented.  An
unparsable cron expression raises
`ValueError(f"Invalid cron expression '{rule.cron}': {e}")`; failure of the
initial `get_next` (before the loop) propagates as the library's error. -/
def generate_events_for_rule_pairs (rule : EventRule) (dr : DateRange) (tds : String) :
    Except PyErr (List (Nat × OrgEvent)) :=
  match parseCron rule.cron with
  | .error msg =>
    .error (.valueError ("Invalid cron expression '" ++ rule.cron ++ "': " ++ msg))
  | .ok e =>
    match getNext e dr.start_date with
    | none => .error (.valueError "failed to find next date")
    | some c0 => .ok (genLoopPairs e rule dr tds (dr.end_date + 1 - dr.start_date) c0 [])

/-- `CronService.generate_events_for_rule`: the returned event list. -/
def generate_events_for_rule (rule : EventRule) (dr : DateRange) (tds : String) :
    Except PyErr (List OrgEvent) :=
  (generate_events_for_rule_pairs rule dr tds).map (List.map Prod.snd)

/-- The `for rule in rules` loop of `CronService.generate_all_events`:
`all_events.extend(...)` per rule, re-raising the first `ValueError`. -/
def generateAllLoop (dr : DateRange) (tds : String) :
    List EventRule → List OrgEvent → Except PyErr (List OrgEvent)
  | [], acc => .ok acc
  | r :: rest, acc =>
    match generate_events_for_rule r dr tds with
    | .error err => .error err
    | .ok evs => generateAllLoop dr tds rest (acc ++ evs)

/-- `CronService.generate_all_events`. -/
def generate_all_events (rules : List EventRule) (dr : DateRange) (tds : String) :
    Except PyErr (List OrgEvent) :=
  generateAllLoop dr tds rules []

/-!
## Grouping and merging (`services/event_service.py`)

Python mutates shared objects: `organize_events_by_date` rewrites each
event's `title` in place, and `merge_with_existing_nodes` extends the
`new_events` list of existing nodes that are aliased both from the
`existing_nodes` input and from the merged output.  The embedding passes
this state explicitly: `organize_events_by_date` additionally returns the
post-call state of its input event list, and the merge keeps the existing
nodes in a positional heap with output entries that reference it.
-/

/-- The sort key of Python's `merged_nodes.sort(key=lambda node: node.date)`
and of `sorted(..., key=lambda n: n.date)`. -/
def nodeDateLe (a b : OrgDateNode) : Prop := a.date ≤ b.date

instance : DecidableRel nodeDateLe := fun a b =>
  inferInstanceAs (Decidable (a.date ≤ b.date))

instance : IsTotal OrgDateNode nodeDateLe := ⟨fun a b => Nat.le_total a.date b.date⟩

instance : IsTrans OrgDateNode nodeDateLe := ⟨fun _ _ _ => Nat.le_trans⟩

/-- The sort key of `sorted(events_by_date.items())` (distinct date keys,
so the tuple comparison never reaches the value lists). -/
def entryKeyLe (a b : Nat × List OrgEvent) : Prop := a.1 ≤ b.1

instance : DecidableRel entryKeyLe := fun a b =>
  inferInstanceAs (Decidable (a.1 ≤ b.1))

/-- One step of the `defaultdict(list)` grouping: append `e` under key `k`,
creating the key (at the end, in insertion order) if absent. -/
def addMap (m : List (Nat × List OrgEvent)) (k : Nat) (e : OrgEvent) :
    List (Nat × List OrgEvent) :=
  match m with
  | [] => [(k, [e])]
  | (k', l) :: rest =>
    if k' = k then (k', l ++ [e]) :: rest else (k', l) :: addMap rest k e

/-- The `for event in events` loop of `EventService.organize_events_by_date`.
`emap` is `events_by_date`; `post` is the accumulated post-call state of the
input list (each event's `title` mutated in place when it contains `"@@"`).
An unparsable datetime suffix raises out of `datetime.fromisoformat`. -/
def organizeLoop (dr : DateRange) :
    List OrgEvent → List (Nat × List OrgEvent) → List OrgEvent →
    Except PyErr (List (Nat × List OrgEvent) × List OrgEvent)
  | [], emap, post => .ok (emap, post)
  | e :: rest, emap, post =>
    let parts := pySplit e.title "@@"
    if 2 ≤ parts.length then
      -- `"@@" in event.title`: split, parse the datetime, clean the title
      match parseIso (parts.getD 1 "") with
      | none =>
        .error (.valueError ("Invalid isoformat string: '" ++ parts.getD 1 "" ++ "'"))
      | some dt =>
        let e' := { e with title := parts.headD "" }
        organizeLoop dr rest (addMap emap (dayOf dt) e') (post ++ [e'])
    else
      -- fallback: group under date_range.start_date.date()
      organizeLoop dr rest (addMap emap (dayOf dr.start_date) e) (post ++ [e])

/-- `EventService.organize_events_by_date`.  Returns the produced
`OrgDateNode` list together with the post-call state of the input event
list (Python mutates the events in place). -/
def organize_events_by_date (events : List OrgEvent) (dr : DateRange) :
    Except PyErr (List OrgDateNode × List OrgEvent) :=
  match organizeLoop dr events [] [] with
  | .error err => .error err
  | .ok (emap, post) =>
    -- `for date, day_events in sorted(events_by_date.items())`
    let sorted := List.insertionSort entryKeyLe emap
    .ok (sorted.map (fun p =>
      { date := p.1 * secPerDay, existing_events := [], new_events := p.2 }), post)

/-- An entry of the merged list before materialisation: either a reference
into the existing-node heap or a new node taken as-is. -/
inductive MEntry where
  | exist (i : Nat)
  | fresh (n : OrgDateNode)
deriving DecidableEq, Repr

/-- Index of the last node with calendar date `k` — the `existing_by_date`
dict of `EventService.merge_with_existing_nodes` (later nodes overwrite
earlier ones at the same date). -/
def lastIdxByDate : List OrgDateNode → Nat → Option Nat
  | [], _ => none
  | n :: ns, k =>
    match lastIdxByDate ns k with
    | some j => some (j + 1)
    | none => if dayOf n.date = k then some 0 else none

/-- Apply `f` to the `i`-th element of a list. -/
def updateAt (f : OrgDateNode → OrgDateNode) : Nat → List OrgDateNode → List OrgDateNode
  | _, [] => []
  | 0, x :: xs => f x :: xs
  | i + 1, x :: xs => x :: updateAt f i xs

/-- The `for new_node in new_nodes` loop of `merge_with_existing_nodes`:
`existing_node.new_events.extend(new_node.new_events)` mutates the heap,
and the appended output entry references the shared object. -/
def mergeNewLoop (exist0 : List OrgDateNode) :
    List OrgDateNode → List OrgDateNode → List MEntry →
    List OrgDateNode × List MEntry
  | [], heap, acc => (heap, acc)
  | nn :: rest, heap, acc =>
    match lastIdxByDate exist0 (dayOf nn.date) with
    | some i =>
      mergeNewLoop exist0 rest
        (updateAt (fun ex => { ex with new_events := ex.new_events ++ nn.new_events }) i heap)
        (acc ++ [.exist i])
    | none => mergeNewLoop exist0 rest heap (acc ++ [.fresh nn])

/-- Materialise a merged-list entry against the final heap state: a
referenced existing node reads its (mutated) object; a new node is itself. -/
def matFn (heap : List OrgDateNode) : MEntry → OrgDateNode
  | .exist i => (heap.get? i).getD default
  | .fresh n => n

/-- The `for existing_node in existing_nodes` fallback loop of
`merge_with_existing_nodes`, as heap indices:
`if existing_node.date.date() not in [node.date.date() for node in new_nodes]`. -/
def fallbackIdxs (new_nodes existing_nodes : List OrgDateNode) : List Nat :=
  (List.range existing_nodes.length).filter
    (fun i => ¬ (new_nodes.map (fun n => dayOf n.date)).contains
      (dayOf (((existing_nodes.get? i).getD default).date)))

/-- `EventService.merge_with_existing_nodes`: merge new nodes into the
existing ones keyed by calendar date, append the existing nodes whose date
has no new node, then stable-sort by `node.date` (Python's `list.sort` is
stable; `List.insertionSort` places later-inserted elements after equal
keys in the same way). -/
def merge_with_existing_nodes (new_nodes existing_nodes : List OrgDateNode) :
    List OrgDateNode :=
  let st := mergeNewLoop existing_nodes new_nodes existing_nodes []
  let nodes := (st.2 ++ (fallbackIdxs new_nodes existing_nodes).map MEntry.exist).map (matFn st.1)
  List.insertionSort nodeDateLe nodes

/-!
## Rendering (`parsers/org_mode.py`)
-/

/-- `OrgModeParser._render_event`.  The heading is assembled from the
optional status keyword (Python truthiness: `None` and `""` are skipped),
the title, and the colon-delimited tag block; then the code evaluates
`if event.body:` — but `OrgEvent` (models/org_event.py) declares no `body`
field, so this attribute access raises `AttributeError` for every event. -/
def renderEvent (event : OrgEvent) : Except PyErr String :=
  let parts : List String :=
    (match event.todo_state with
     | some ts => if ts ≠ "" then [ts] else []
     | none => []) ++ [event.title] ++
    (match event.tags with
     | [] => []
     | ts => [":" ++ String.intercalate ":" ts ++ ":"])
  let _heading := String.mk (List.replicate event.level '*') ++ " " ++
    String.intercalate " " parts
  .error (.attributeError "body")

/-- Render a list of events to heading lines, propagating the first
exception. -/
def renderEventsLines : List OrgEvent → Except PyErr (List String)
  | [] => .ok []
  | e :: es => do
    let l ← renderEvent e
    let ls ← renderEventsLines es
    .ok (l :: ls)

/-- The lines emitted for one date node: `*** {node.day}` followed by the
existing events then the new events. -/
def renderNodeLines (n : OrgDateNode) : Except PyErr (List String) := do
  let ex ← renderEventsLines n.existing_events
  let nw ← renderEventsLines n.new_events
  .ok (("*** " ++ n.day) :: (ex ++ nw))

/-- Lines for a week's nodes, in order. -/
def renderNodesLines : List OrgDateNode → Except PyErr (List String)
  | [] => .ok []
  | n :: ns => do
    let l ← renderNodeLines n
    let ls ← renderNodesLines ns
    .ok (l ++ ls)

/-- One step of the `year_weeks` grouping dict of `render_org_content`:
append node `n` under key `k` (Python dicts preserve insertion order). -/
def addGroup (m : List ((String × String) × List OrgDateNode)) (k : String × String)
    (n : OrgDateNode) : List ((String × String) × List OrgDateNode) :=
  match m with
  | [] => [(k, [n])]
  | (k', l) :: rest =>
    if k' = k then (k', l ++ [n]) :: rest else (k', l) :: addGroup rest k n

/-- The `year_weeks` dict keyed by `(node.year, node.week)`. -/
def buildGroups (nodes : List OrgDateNode) :
    List ((String × String) × List OrgDateNode) :=
  nodes.foldl (fun m n => addGroup m (n.year, n.week) n) []

/-- `year_weeks[(year, week)]`. -/
def groupsLookup (m : List ((String × String) × List OrgDateNode))
    (k : String × String) : List OrgDateNode :=
  match m.find? (fun p => decide (p.1 = k)) with
  | some p => p.2
  | none => []

/-- Python tuple comparison on `(year, week)` string pairs, as used by
`sorted(year_weeks.keys())`. -/
def keyLe (a b : String × String) : Prop :=
  strLtB a.1 b.1 = true ∨ (a.1 = b.1 ∧ strLeB a.2 b.2 = true)

/-- Strict version of `keyLe`. -/
def keyLt (a b : String × String) : Prop :=
  strLtB a.1 b.1 = true ∨ (a.1 = b.1 ∧ strLtB a.2 b.2 = true)

instance : DecidableRel keyLe := fun a b =>
  inferInstanceAs (Decidable (strLtB a.1 b.1 = true ∨ (a.1 = b.1 ∧ strLeB a.2 b.2 = true)))

instance : DecidableRel keyLt := fun a b =>
  inferInstanceAs (Decidable (strLtB a.1 b.1 = true ∨ (a.1 = b.1 ∧ strLtB a.2 b.2 = true)))

/-- The `for year, week in sorted_year_weeks` loop of `render_org_content`:
thread the emitted lines and `current_year` (year headings are emitted once
per year, with a blank line between years). -/
def renderWeekLoop (groups : List ((String × String) × List OrgDateNode)) :
    List (String × String) → List String → Option String →
    Except PyErr (List String × Option String)
  | [], lines, cy => .ok (lines, cy)
  | k :: rest, lines, cy => do
    let nodes_in_week := List.insertionSort nodeDateLe (groupsLookup groups k)
    let st :=
      if cy ≠ some k.1 then
        (lines ++ (if cy.isSome then [""] else []) ++ ["* " ++ k.1], some k.1)
      else (lines, cy)
    let lines2 := st.1 ++ ["** " ++ k.2]
    let nodeLines ← renderNodesLines nodes_in_week
    renderWeekLoop groups rest (lines2 ++ nodeLines) st.2

/-- `OrgModeParser.render_org_content`. -/
def render_org_content (date_nodes : List OrgDateNode) : Except PyErr String :=
  if date_nodes.isEmpty then .ok ""
  else
    let groups := buildGroups date_nodes
    let keys := List.insertionSort keyLe (groups.map Prod.fst)
    match renderWeekLoop groups keys [] none with
    | .error err => .error err
    | .ok st => .ok (String.intercalate "\n" st.1)

/-- The order in which `render_org_content` emits the date containers:
group keys sorted by Python tuple comparison, each group's members sorted
ascending by date (exactly the traversal of `renderWeekLoop`). -/
def renderEmissionOrder (date_nodes : List OrgDateNode) : List OrgDateNode :=
  (List.insertionSort keyLe ((buildGroups date_nodes).map Prod.fst)).flatMap
    (fun k => List.insertionSort nodeDateLe (groupsLookup (buildGroups date_nodes) k))

/-!
## Date-range warnings (`models/date_range.py`)

`datetime.now()` is passed explicitly as `now`.
-/

/-- Midnight of the Monday of `now`'s week:
`today_start - timedelta(days=now.weekday())`. -/
def weekStartOf (now : Nat) : Nat :=
  dayOf now * secPerDay - weekdayOfDay (dayOf now) * secPerDay

/-- `DateRange._check_past_dates`: the advisory warnings appended when the
start lies before the Monday of the current week. -/
def checkPastDates (now start_date : Nat) : List String :=
  let week_start := weekStartOf now
  if start_date < week_start then
    let days_past := (week_start - start_date) / secPerDay
    if 365 < days_past then
      ["Generating events for dates more than 1 year in the past ("
        ++ toString days_past ++ " days ago)"]
    else if 30 < days_past then
      ["Generating events for dates more than 1 month in the past ("
        ++ toString days_past ++ " days ago)"]
    else if 7 < days_past then
      ["Generating events for dates more than 1 week in the past ("
        ++ toString days_past ++ " days ago)"]
    else
      ["Generating events for past dates (" ++ toString days_past ++ " days ago)"]
  else []

/-- `datetime.replace(year=newY)`: same month, day and time-of-day in year
`newY`; raises `ValueError` when the day does not exist there
(February 29 in a non-leap year). -/
def replaceYear (t : Nat) (newY : Nat) : Except PyErr Nat :=
  let z := dayOf t
  if domOfDay z ≤ daysInMonth newY (monthOfDay z) then
    .ok (daysFromCivil newY (monthOfDay z) (domOfDay z) * secPerDay + t % secPerDay)
  else .error (.valueError "day is out of range for month")

/-- One-decimal formatting of a nonnegative rational, approximating
Python's `f"{x:.1f}"` (which formats a binary float; the warnings below
never materialise in any claim instance, so only the shape matters). -/
def fmtOneDec (q : Rat) : String :=
  let n := (q * 10 + 1 / 2).floor
  toString (n / 10) ++ "." ++ toString (n % 10)

/-- `DateRange._check_future_dates`.  `365.25` is exactly representable, so
the tier comparison is modelled with exact rationals. -/
def checkFutureDates (now end_date : Nat) : Except PyErr (List String) := do
  let oyf ← replaceYear now (yearOfDay (dayOf now) + 1)
  if oyf < end_date then do
    let rep ← replaceYear end_date (yearOfDay (dayOf now))
    let days : Nat := (end_date - rep) / secPerDay
    let years_future : Rat :=
      ((yearOfDay (dayOf end_date) - yearOfDay (dayOf now) : Nat) : Rat)
        + (days : Rat) / (1461 / 4 : Rat)
    if 2 < years_future then
      pure ["Generating events more than 2 years in the future ("
        ++ fmtOneDec years_future ++ " years from now)"]
    else
      pure ["Generating events beyond 1 year in the future ("
        ++ fmtOneDec years_future ++ " years from now)"]
  else pure []

/-- `DateRange.__post_init__`: order check, then the past-date and
future-date advisory checks, in that order. -/
def mkDateRange (now start_date end_date : Nat) : Except PyErr DateRange :=
  if end_date < start_date then
    .error (.valueError "Start date must be before or equal to end date")
  else do
    let futW ← checkFutureDates now end_date
    pure { start_date := start_date, end_date := end_date,
           warnings := checkPastDates now start_date ++ futW }

/-!
## Concrete inputs used by counterexamples and witnesses
-/

/-- A bare event with the given title. -/
def mkEv (t : String) : OrgEvent := { title := t }

/-- A date container at day number `d` (midnight). -/
def nodeAt (d : Nat) (ex nw : List OrgEvent) : OrgDateNode :=
  { date := d * secPerDay, existing_events := ex, new_events := nw }

/-- Day number of 2025-01-06 (a Monday). -/
def dJan6 : Nat := daysFromCivil 2025 1 6

/-- Day number of 2025-12-29 (a Monday, ISO week 2026-W01). -/
def dDec29 : Nat := daysFromCivil 2025 12 29

/-- A `datetime.now()` value: 2025-10-08 01:00:00 (a Wednesday); the Monday
of its week is 2025-10-06. -/
def now0 : Nat := daysFromCivil 2025 10 8 * secPerDay + 3600

/-!
## Lemmas about the expansion loop
-/

theorem scanNext_some_ge {e : CronExpr} :
    ∀ {f c t : Nat}, scanNext e f c = some t → c ≤ t := by
  intro f
  induction f with
  | zero => intro c t h; simp [scanNext] at h
  | succ f ih =>
    intro c t h
    rw [scanNext] at h
    by_cases hm : cronMatches e c
    · simp [hm] at h; omega
    · simp [hm] at h
      exact le_trans (by omega) (ih h)

theorem getNext_gt {e : CronExpr} {t next : Nat} (h : getNext e t = some next) :
    t < next := by
  unfold getNext at h
  have h1 := scanNext_some_ge h
  omega

/-- Single-step bookkeeping for the generation loop: appending the current
instant preserves the bounds, the strict ordering, and the "everything is
at most `current`" invariant. -/
theorem genLoopStep_props (dr : DateRange) (rule : EventRule) (tds : String)
    {current : Nat} {events : List (Nat × OrgEvent)}
    (h1 : current ≤ dr.end_date)
    (hb : ∀ p ∈ events, dr.start_date ≤ p.1 ∧ p.1 ≤ dr.end_date)
    (ho : ∀ p ∈ events, p.1 < current)
    (hp : List.Pairwise (fun a b : Nat × OrgEvent => a.1 < b.1) events) :
    let events' := if dr.start_date ≤ current then
        events ++ [(current, mkRuleEvent rule tds current)] else events
    (∀ p ∈ events', dr.start_date ≤ p.1 ∧ p.1 ≤ dr.end_date)
    ∧ (∀ p ∈ events', p.1 ≤ current)
    ∧ List.Pairwise (fun a b : Nat × OrgEvent => a.1 < b.1) events' := by
  by_cases hs : dr.start_date ≤ current
  · simp only [hs, if_true]
    refine ⟨?_, ?_, ?_⟩
    · intro p hpmem
      rcases List.mem_append.1 hpmem with hold | hnew
      · exact hb p hold
      · simp at hnew; subst hnew; exact ⟨hs, h1⟩
    · intro p hpmem
      rcases List.mem_append.1 hpmem with hold | hnew
      · exact le_of_lt (ho p hold)
      · simp at hnew; subst hnew; exact le_refl _
    · refine List.pairwise_append.2 ⟨hp, List.pairwise_singleton _ _, ?_⟩
      intro a ha b hbmem
      simp at hbmem; subst hbmem
      exact ho a ha
  · simp only [hs, if_false]
    exact ⟨hb, fun p hpmem => le_of_lt (ho p hpmem), hp⟩

/-- Loop invariant: the generation loop returns a list whose instants are
strictly increasing and lie in `[start_date, end_date]`. -/
theorem genLoopPairs_sound (e : CronExpr) (rule : EventRule) (dr : DateRange) (tds : String) :
    ∀ fuel current events,
      (∀ p ∈ events, dr.start_date ≤ p.1 ∧ p.1 ≤ dr.end_date) →
      (∀ p ∈ events, p.1 < current) →
      List.Pairwise (fun a b : Nat × OrgEvent => a.1 < b.1) events →
      (∀ p ∈ genLoopPairs e rule dr tds fuel current events,
        dr.start_date ≤ p.1 ∧ p.1 ≤ dr.end_date)
      ∧ List.Pairwise (fun a b : Nat × OrgEvent => a.1 < b.1)
        (genLoopPairs e rule dr tds fuel current events) := by
  intro fuel
  induction fuel with
  | zero =>
    intro current events hb ho hp
    rw [genLoopPairs]
    by_cases h1 : current ≤ dr.end_date
    · obtain ⟨hb', _, hp'⟩ := genLoopStep_props dr rule tds h1 hb ho hp
      simp only [h1, if_true]
      cases hgn : getNext e current with
      | none => exact ⟨hb', hp'⟩
      | some next =>
        by_cases h2 : 10000 < (if dr.start_date ≤ current then
            events ++ [(current, mkRuleEvent rule tds current)] else events).length
        · simp only [hgn, h2, if_true]
          exact ⟨hb', hp'⟩
        · simp only [hgn, h2, if_false]
          exact ⟨hb', hp'⟩
    · simp only [h1, if_false]
      exact ⟨hb, hp⟩
  | succ f ih =>
    intro current events hb ho hp
    rw [genLoopPairs]
    by_cases h1 : current ≤ dr.end_date
    · obtain ⟨hb', ho', hp'⟩ := genLoopStep_props dr rule tds h1 hb ho hp
      simp only [h1, if_true]
      cases hgn : getNext e current with
      | none => exact ⟨hb', hp'⟩
      | some next =>
        by_cases h2 : 10000 < (if dr.start_date ≤ current then
            events ++ [(current, mkRuleEvent rule tds current)] else events).length
        · simp only [hgn, h2, if_true]
          exact ⟨hb', hp'⟩
        · simp only [hgn, h2, if_false]
          exact ih next _ hb'
            (fun p hpmem => lt_of_le_of_lt (ho' p hpmem) (getNext_gt hgn)) hp'
    · simp only [h1, if_false]
      exact ⟨hb, hp⟩

/-- Loop invariant for the ceiling: entering with at most 10,000 collected
events, the loop exits with at most 10,001. -/
theorem genLoopPairs_length_le (e : CronExpr) (rule : EventRule) (dr : DateRange) (tds : String) :
    ∀ fuel current events, events.length ≤ 10000 →
      (genLoopPairs e rule dr tds fuel current events).length ≤ 10001 := by
  intro fuel
  induction fuel with
  | zero =>
    intro current events hlen
    rw [genLoopPairs]
    by_cases h1 : current ≤ dr.end_date
    · simp only [h1, if_true]
      have hlen' : (if dr.start_date ≤ current then
          events ++ [(current, mkRuleEvent rule tds current)] else events).length ≤ 10001 := by
        by_cases hs : dr.start_date ≤ current <;> simp [hs] <;> omega
      cases hgn : getNext e current with
      | none => exact hlen'
      | some next =>
        by_cases h2 : 10000 < (if dr.start_date ≤ current then
            events ++ [(current, mkRuleEvent rule tds current)] else events).length
        · simp only [hgn, h2, if_true]; exact hlen'
        · simp only [hgn, h2, if_false]; exact hlen'
    · simp only [h1, if_false]; omega
  | succ f ih =>
    intro current events hlen
    rw [genLoopPairs]
    by_cases h1 : current ≤ dr.end_date
    · simp only [h1, if_true]
      have hlen' : (if dr.start_date ≤ current then
          events ++ [(current, mkRuleEvent rule tds current)] else events).length ≤ 10001 := by
        by_cases hs : dr.start_date ≤ current <;> simp [hs] <;> omega
      cases hgn : getNext e current with
      | none => exact hlen'
      | some next =>
        by_cases h2 : 10000 < (if dr.start_date ≤ current then
            events ++ [(current, mkRuleEvent rule tds current)] else events).length
        · simp only [hgn, h2, if_true]; exact hlen'
        · simp only [hgn, h2, if_false]
          exact ih next _ (by omega)
    · simp only [h1, if_false]; omega

/-- The all-wildcard cron expression (`"* * * * *"`). -/
def starCron : CronExpr := ⟨none, none, none, none, none⟩

theorem cronMatches_star (t : Nat) : cronMatches starCron t = true := rfl

theorem scanNext_succ (e : CronExpr) (f c : Nat) (hm : cronMatches e c = true) :
    scanNext e (f + 1) c = some c := by
  rw [scanNext, hm]
  simp

theorem getNext_star (t : Nat) : getNext starCron t = some ((t / 60 + 1) * 60) := by
  unfold getNext cronSearchFuel
  have hf : (4 * 366 * 1440 : Nat) = 2108159 + 1 := by norm_num
  rw [hf]
  exact scanNext_succ _ _ _ (cronMatches_star _)

/-- With the all-wildcard expression and `j` further loop rounds of room,
the loop fills up to exactly 10,001 events before the ceiling stops it. -/
theorem genLoopPairs_star_count (rule : EventRule) (dr : DateRange) (tds : String) :
    ∀ j fuel current events,
      events.length + j = 10000 →
      dr.start_date ≤ current →
      current % 60 = 0 →
      current + 60 * j ≤ dr.end_date →
      j ≤ fuel →
      (genLoopPairs starCron rule dr tds fuel current events).length = 10001 := by
  intro j
  induction j with
  | zero =>
    intro fuel current events hlen hs hmod hroom _
    have h1 : current ≤ dr.end_date := by omega
    cases fuel with
    | zero =>
      rw [genLoopPairs]
      simp only [h1, if_true, hs, if_true, getNext_star]
      have h2 : 10000 < (events ++ [(current, mkRuleEvent rule tds current)]).length := by
        simp; omega
      simp only [h2, if_true]
      simp; omega
    | succ f =>
      rw [genLoopPairs]
      simp only [h1, if_true, hs, if_true, getNext_star]
      have h2 : 10000 < (events ++ [(current, mkRuleEvent rule tds current)]).length := by
        simp; omega
      simp only [h2, if_true]
      simp; omega
  | succ j ih =>
    intro fuel current events hlen hs hmod hroom hfuel
    have h1 : current ≤ dr.end_date := by omega
    cases fuel with
    | zero => omega
    | succ f =>
      rw [genLoopPairs]
      simp only [h1, if_true, hs, if_true, getNext_star]
      have h2 : ¬ 10000 < (events ++ [(current, mkRuleEvent rule tds current)]).length := by
        simp; omega
      simp only [h2, if_false]
      have hnext : (current / 60 + 1) * 60 = current + 60 := by omega
      rw [hnext]
      exact ih f (current + 60) _ (by simp; omega) (by omega) (by omega) (by omega) (by omega)

/-!
## Lemmas about the merge
-/

/-- The per-node data the merge never touches: date and existing list. -/
def dex (n : OrgDateNode) : Nat × List OrgEvent := (n.date, n.existing_events)

/-- The entry that `merge_with_existing_nodes` appends for one new node. -/
def entryFor (exist0 : List OrgDateNode) (nn : OrgDateNode) : MEntry :=
  match lastIdxByDate exist0 (dayOf nn.date) with
  | some i => .exist i
  | none => .fresh nn

theorem lastIdxByDate_some :
    ∀ {nodes : List OrgDateNode} {k i}, lastIdxByDate nodes k = some i →
      ∃ n, nodes.get? i = some n ∧ dayOf n.date = k := by
  intro nodes
  induction nodes with
  | nil => intro k i h; simp [lastIdxByDate] at h
  | cons n ns ih =>
    intro k i h
    rw [lastIdxByDate] at h
    cases hrec : lastIdxByDate ns k with
    | some j =>
      rw [hrec] at h
      obtain ⟨m, hm, hk⟩ := ih hrec
      cases h
      exact ⟨m, by simpa using hm, hk⟩
    | none =>
      rw [hrec] at h
      by_cases hd : dayOf n.date = k
      · simp [hd] at h
        cases h
        exact ⟨n, rfl, hd⟩
      · simp [hd] at h

theorem lastIdxByDate_none :
    ∀ {nodes : List OrgDateNode} {k}, lastIdxByDate nodes k = none →
      ∀ n ∈ nodes, dayOf n.date ≠ k := by
  intro nodes
  induction nodes with
  | nil => intro k _ n hn; simp at hn
  | cons m ms ih =>
    intro k h n hn
    rw [lastIdxByDate] at h
    cases hrec : lastIdxByDate ms k with
    | some j => rw [hrec] at h; simp at h
    | none =>
      rw [hrec] at h
      by_cases hd : dayOf m.date = k
      · simp [hd] at h
      · rcases List.mem_cons.1 hn with rfl | hmem
        · exact hd
        · exact ih hrec n hmem

theorem lastIdxByDate_of_get? :
    ∀ {nodes : List OrgDateNode} {j n},
      (nodes.map (fun n => dayOf n.date)).Nodup →
      nodes.get? j = some n →
      lastIdxByDate nodes (dayOf n.date) = some j := by
  intro nodes
  induction nodes with
  | nil => intro j n _ hj; simp at hj
  | cons m ms ih =>
    intro j n hnd hj
    have hnd' : (ms.map (fun n => dayOf n.date)).Nodup := (List.nodup_cons.1 hnd).2
    have hnotin : dayOf m.date ∉ ms.map (fun n => dayOf n.date) := (List.nodup_cons.1 hnd).1
    cases j with
    | zero =>
      rw [List.get?_cons_zero] at hj
      injection hj with hj
      subst hj
      rw [lastIdxByDate]
      cases hrec : lastIdxByDate ms (dayOf m.date) with
      | some i =>
        obtain ⟨p, hp, hk⟩ := lastIdxByDate_some hrec
        exact absurd (hk ▸ List.mem_map_of_mem (fun n => dayOf n.date)
          (List.get?_mem hp)) hnotin
      | none => simp
    | succ j' =>
      rw [List.get?_cons_succ] at hj
      rw [lastIdxByDate, ih hnd' hj]

theorem updateAt_get? (f : OrgDateNode → OrgDateNode) :
    ∀ (i : Nat) (l : List OrgDateNode) (j : Nat),
      (updateAt f i l).get? j = if j = i then (l.get? j).map f else l.get? j := by
  intro i l
  induction l generalizing i with
  | nil => intro j; simp [updateAt]
  | cons x xs ih =>
    intro j
    cases i with
    | zero =>
      cases j with
      | zero => simp [updateAt]
      | succ j' => simp [updateAt]
    | succ i' =>
      cases j with
      | zero => simp [updateAt]
      | succ j' =>
        rw [updateAt]
        simp only [List.get?_cons_succ]
        rw [ih i' j']
        by_cases h : j' = i' <;> simp [h]

theorem updateAt_length (f : OrgDateNode → OrgDateNode) :
    ∀ (i : Nat) (l : List OrgDateNode), (updateAt f i l).length = l.length := by
  intro i l
  induction l generalizing i with
  | nil => simp [updateAt]
  | cons x xs ih =>
    cases i with
    | zero => simp [updateAt]
    | succ i' => simp [updateAt, ih i']

theorem mergeNewLoop_acc (exist0 : List OrgDateNode) :
    ∀ (nns : List OrgDateNode) (heap : List OrgDateNode) (acc : List MEntry),
      (mergeNewLoop exist0 nns heap acc).2 = acc ++ nns.map (entryFor exist0) := by
  intro nns
  induction nns with
  | nil => intro heap acc; simp [mergeNewLoop]
  | cons nn rest ih =>
    intro heap acc
    rw [mergeNewLoop]
    cases h : lastIdxByDate exist0 (dayOf nn.date) with
    | some i =>
      simp only [h]
      rw [ih]
      simp [entryFor, h]
    | none =>
      simp only [h]
      rw [ih]
      simp [entryFor, h]

theorem mergeNewLoop_heap (exist0 : List OrgDateNode) :
    ∀ (nns : List OrgDateNode) (heap : List OrgDateNode) (acc : List MEntry) (i : Nat),
      ((mergeNewLoop exist0 nns heap acc).1.get? i).map dex = (heap.get? i).map dex := by
  intro nns
  induction nns with
  | nil => intro heap acc i; simp [mergeNewLoop]
  | cons nn rest ih =>
    intro heap acc i
    rw [mergeNewLoop]
    cases h : lastIdxByDate exist0 (dayOf nn.date) with
    | some j =>
      simp only [h]
      rw [ih]
      rw [updateAt_get? _ j heap i]
      by_cases hij : i = j
      · subst hij
        simp only [if_pos rfl]
        cases heap.get? i <;> simp [dex]
      · simp [hij]
    | none => simp only [h]; rw [ih]

/-- Unfolding of `merge_with_existing_nodes` into its stages. -/
theorem merge_eq (new_nodes existing_nodes : List OrgDateNode) :
    merge_with_existing_nodes new_nodes existing_nodes =
    List.insertionSort nodeDateLe
      (((mergeNewLoop existing_nodes new_nodes existing_nodes []).2
        ++ (fallbackIdxs new_nodes existing_nodes).map MEntry.exist).map
        (matFn (mergeNewLoop existing_nodes new_nodes existing_nodes []).1)) := rfl

theorem entryFor_exist {exist0 : List OrgDateNode} {nn : OrgDateNode} {i : Nat}
    (h : entryFor exist0 nn = .exist i) :
    lastIdxByDate exist0 (dayOf nn.date) = some i := by
  unfold entryFor at h
  cases hl : lastIdxByDate exist0 (dayOf nn.date) with
  | some j => rw [hl] at h; injection h with h; rw [h]
  | none => rw [hl] at h; exact MEntry.noConfusion h

theorem entryFor_fresh {exist0 : List OrgDateNode} {nn n : OrgDateNode}
    (h : entryFor exist0 nn = .fresh n) :
    lastIdxByDate exist0 (dayOf nn.date) = none ∧ n = nn := by
  unfold entryFor at h
  cases hl : lastIdxByDate exist0 (dayOf nn.date) with
  | some j => rw [hl] at h; exact MEntry.noConfusion h
  | none =>
    rw [hl] at h
    injection h with h
    exact ⟨rfl, h.symm⟩

/-- The final heap at an index that names an existing node: same date and
existing list as the original node. -/
theorem heap_at (new_nodes exist0 : List OrgDateNode) {i : Nat} {n0 : OrgDateNode}
    (h : exist0.get? i = some n0) :
    ∃ m, (mergeNewLoop exist0 new_nodes exist0 []).1.get? i = some m
      ∧ m.date = n0.date ∧ m.existing_events = n0.existing_events := by
  have hkeep := mergeNewLoop_heap exist0 new_nodes exist0 [] i
  rw [h] at hkeep
  cases hm : (mergeNewLoop exist0 new_nodes exist0 []).1.get? i with
  | none => rw [hm] at hkeep; simp at hkeep
  | some m =>
    rw [hm] at hkeep
    simp only [Option.map_some', dex, Option.some.injEq, Prod.mk.injEq] at hkeep
    exact ⟨m, rfl, hkeep.1, hkeep.2⟩

/-- Materialising the entry of a new node lands on a node with the same
calendar date. -/
theorem matFn_entryFor_key (new_nodes exist0 : List OrgDateNode) (nn : OrgDateNode) :
    dayOf ((matFn (mergeNewLoop exist0 new_nodes exist0 []).1 (entryFor exist0 nn)).date)
      = dayOf nn.date := by
  cases he : entryFor exist0 nn with
  | exist i =>
    obtain ⟨n0, hn0, hkey⟩ := lastIdxByDate_some (entryFor_exist he)
    obtain ⟨m, hm, hdate, _⟩ := heap_at new_nodes exist0 hn0
    rw [matFn, hm]
    simp [hdate, hkey]
  | fresh n =>
    obtain ⟨_, rfl⟩ := entryFor_fresh he
    rw [matFn]

/-- Shared step for the merge-preservation proof: any materialised
heap-reference entry whose date matches `ex`'s date carries exactly `ex`'s
existing list (dates are unique among the existing nodes). -/
theorem matFn_exist_existing (new_nodes existing_nodes : List OrgDateNode)
    {ex : OrgDateNode} {j : Nat}
    (hex : (existing_nodes.map (fun n => dayOf n.date)).Nodup)
    (hj : existing_nodes.get? j = some ex)
    {i : Nat} {n0 : OrgDateNode} (hn0 : existing_nodes.get? i = some n0)
    (hkey : dayOf ((matFn (mergeNewLoop existing_nodes new_nodes existing_nodes []).1
        (.exist i)).date) = dayOf ex.date) :
    (matFn (mergeNewLoop existing_nodes new_nodes existing_nodes []).1
        (.exist i)).existing_events = ex.existing_events := by
  obtain ⟨m, hm, hmdate, hmex⟩ := heap_at new_nodes existing_nodes hn0
  have hmat : matFn (mergeNewLoop existing_nodes new_nodes existing_nodes []).1
      (.exist i) = m := by
    rw [matFn, hm]
    rfl
  rw [hmat] at hkey ⊢
  have hilt : i < existing_nodes.length := by
    by_contra hge
    rw [List.get?_eq_none.2 (Nat.le_of_not_lt hge)] at hn0
    exact Option.noConfusion hn0
  have hkeyn0 : dayOf n0.date = dayOf ex.date := by rw [← hmdate]; exact hkey
  have hgets : (existing_nodes.map (fun n => dayOf n.date)).get? i
      = (existing_nodes.map (fun n => dayOf n.date)).get? j := by
    rw [List.get?_map, List.get?_map, hn0, hj]
    simp [hkeyn0]
  have hij : i = j := by
    have hlen : i < (existing_nodes.map (fun n => dayOf n.date)).length := by
      rw [List.length_map]
      exact hilt
    have hgetE : (existing_nodes.map (fun n => dayOf n.date))[i]?
        = (existing_nodes.map (fun n => dayOf n.date))[j]? := by
      rw [← List.get?_eq_getElem?, ← List.get?_eq_getElem?]
      exact hgets
    exact List.getElem?_inj hlen hex hgetE
  rw [hij] at hn0
  rw [hj] at hn0
  injection hn0 with hn0
  rw [hmex, hn0]

/-- C2 (amended).  When the existing containers have pairwise-distinct
calendar dates, the merge result contains a container with exactly the
date and the existing-occurrence list of each existing container, and every
result container at that calendar date carries exactly that list — nothing
lost, reordered or mutated. -/
theorem C2_merge_preserves_existing_of_nodup_dates
    (new_nodes existing_nodes : List OrgDateNode) (ex : OrgDateNode)
    (hex : (existing_nodes.map (fun n => dayOf n.date)).Nodup)
    (hmem : ex ∈ existing_nodes) :
    (∃ node ∈ merge_with_existing_nodes new_nodes existing_nodes,
        node.date = ex.date ∧ node.existing_events = ex.existing_events)
    ∧ ∀ node ∈ merge_with_existing_nodes new_nodes existing_nodes,
        dayOf node.date = dayOf ex.date → node.existing_events = ex.existing_events := by
  classical
  obtain ⟨j, hj⟩ := List.mem_iff_get?.1 hmem
  have hjlt : j < existing_nodes.length := by
    by_contra hge
    rw [List.get?_eq_none.2 (Nat.le_of_not_lt hge)] at hj
    exact Option.noConfusion hj
  have hidx : lastIdxByDate existing_nodes (dayOf ex.date) = some j :=
    lastIdxByDate_of_get? hex hj
  have hacc : (mergeNewLoop existing_nodes new_nodes existing_nodes []).2
      = new_nodes.map (entryFor existing_nodes) := by
    simpa using mergeNewLoop_acc existing_nodes new_nodes existing_nodes []
  rw [merge_eq]
  have hmem_iff : ∀ a, a ∈ List.insertionSort nodeDateLe
      (((mergeNewLoop existing_nodes new_nodes existing_nodes []).2
        ++ (fallbackIdxs new_nodes existing_nodes).map MEntry.exist).map
        (matFn (mergeNewLoop existing_nodes new_nodes existing_nodes []).1))
      ↔ a ∈ ((mergeNewLoop existing_nodes new_nodes existing_nodes []).2
        ++ (fallbackIdxs new_nodes existing_nodes).map MEntry.exist).map
        (matFn (mergeNewLoop existing_nodes new_nodes existing_nodes []).1) :=
    fun a => (List.perm_insertionSort nodeDateLe _).mem_iff
  constructor
  · -- existence
    obtain ⟨m, hm, hmdate, hmex⟩ := heap_at new_nodes existing_nodes hj
    have hmat : matFn (mergeNewLoop existing_nodes new_nodes existing_nodes []).1
        (.exist j) = m := by
      rw [matFn, hm]
      rfl
    by_cases hd : dayOf ex.date ∈ new_nodes.map (fun n => dayOf n.date)
    · obtain ⟨nn, hnn, hkeynn⟩ := List.mem_map.1 hd
      have hE : entryFor existing_nodes nn = .exist j := by
        unfold entryFor
        rw [hkeynn, hidx]
      have hEmem : MEntry.exist j
          ∈ (mergeNewLoop existing_nodes new_nodes existing_nodes []).2
            ++ (fallbackIdxs new_nodes existing_nodes).map MEntry.exist := by
        refine List.mem_append_left _ ?_
        rw [hacc]
        exact hE ▸ List.mem_map_of_mem (entryFor existing_nodes) hnn
      refine ⟨m, (hmem_iff m).2 ?_, hmdate, hmex⟩
      exact hmat ▸ List.mem_map_of_mem _ hEmem
    · have hfb : j ∈ fallbackIdxs new_nodes existing_nodes := by
        unfold fallbackIdxs
        refine List.mem_filter.2 ⟨List.mem_range.2 hjlt, ?_⟩
        simp only [hj, Option.getD_some, decide_eq_true_eq]
        intro hc
        exact hd (List.elem_iff.1 hc)
      have hEmem : MEntry.exist j
          ∈ (mergeNewLoop existing_nodes new_nodes existing_nodes []).2
            ++ (fallbackIdxs new_nodes existing_nodes).map MEntry.exist :=
        List.mem_append_right _ (List.mem_map_of_mem MEntry.exist hfb)
      refine ⟨m, (hmem_iff m).2 ?_, hmdate, hmex⟩
      exact hmat ▸ List.mem_map_of_mem _ hEmem
  · -- uniqueness
    intro node hnode hkey
    obtain ⟨entry, hentry, rfl⟩ := List.mem_map.1 ((hmem_iff node).1 hnode)
    rcases List.mem_append.1 hentry with haccm | hfbm
    · rw [hacc] at haccm
      obtain ⟨nn, hnnmem, hEq⟩ := List.mem_map.1 haccm
      cases hE2 : entryFor existing_nodes nn with
      | exist i =>
        rw [hE2] at hEq
        subst hEq
        obtain ⟨n0, hn0, _⟩ := lastIdxByDate_some (entryFor_exist hE2)
        exact matFn_exist_existing new_nodes existing_nodes hex hj hn0 hkey
      | fresh n =>
        rw [hE2] at hEq
        subst hEq
        obtain ⟨hnone, rfl⟩ := entryFor_fresh hE2
        rw [matFn] at hkey
        exact absurd hkey.symm (lastIdxByDate_none hnone ex hmem)
    · obtain ⟨i, hi, hEq⟩ := List.mem_map.1 hfbm
      subst hEq
      have hilt : i < existing_nodes.length :=
        List.mem_range.1 (List.mem_filter.1 hi).1
      have hn0 : existing_nodes.get? i
          = some (existing_nodes.get ⟨i, hilt⟩) := List.get?_eq_get hilt
      exact matFn_exist_existing new_nodes existing_nodes hex hj hn0 hkey

/-- C6 (amended).  When each input list has at most one container per
calendar date, the merge result has at most one container per calendar
date (pairwise-distinct day keys). -/
theorem C6_unique_dates_of_nodup_inputs (new_nodes existing_nodes : List OrgDateNode)
    (hnew : (new_nodes.map (fun n => dayOf n.date)).Nodup)
    (hex : (existing_nodes.map (fun n => dayOf n.date)).Nodup) :
    ((merge_with_existing_nodes new_nodes existing_nodes).map
      (fun n => dayOf n.date)).Nodup := by
  classical
  rw [merge_eq]
  rw [((List.perm_insertionSort nodeDateLe _).map
    (fun n : OrgDateNode => dayOf n.date)).nodup_iff]
  have hacc : (mergeNewLoop existing_nodes new_nodes existing_nodes []).2
      = new_nodes.map (entryFor existing_nodes) := by
    simpa using mergeNewLoop_acc existing_nodes new_nodes existing_nodes []
  have hsplit : (((mergeNewLoop existing_nodes new_nodes existing_nodes []).2
        ++ (fallbackIdxs new_nodes existing_nodes).map MEntry.exist).map
        (matFn (mergeNewLoop existing_nodes new_nodes existing_nodes []).1)).map
          (fun n => dayOf n.date)
      = new_nodes.map (fun n => dayOf n.date)
        ++ (fallbackIdxs new_nodes existing_nodes).map
          (fun i => dayOf (((existing_nodes.get? i).getD default).date)) := by
    rw [List.map_map, List.map_append]
    congr 1
    · rw [hacc, List.map_map]
      exact List.map_congr_left
        (fun nn _ => matFn_entryFor_key new_nodes existing_nodes nn)
    · rw [List.map_map]
      refine List.map_congr_left ?_
      intro i hi
      have hilt : i < existing_nodes.length := List.mem_range.1 (List.mem_filter.1 hi).1
      have hn0 : existing_nodes.get? i = some (existing_nodes.get ⟨i, hilt⟩) :=
        List.get?_eq_get hilt
      obtain ⟨m, hm, hmdate, _⟩ := heap_at new_nodes existing_nodes hn0
      simp only [Function.comp]
      rw [matFn, hm, hn0]
      simp only [Option.getD_some]
      rw [hmdate]
  rw [hsplit]
  rw [List.nodup_append]
  refine ⟨hnew, ?_, ?_⟩
  · refine List.Nodup.map_on ?_ (List.Nodup.filter _ (List.nodup_range _))
    intro i hi j hjj hgij
    have hilt : i < existing_nodes.length := List.mem_range.1 (List.mem_filter.1 hi).1
    have hjlt : j < existing_nodes.length := List.mem_range.1 (List.mem_filter.1 hjj).1
    have hni : existing_nodes.get? i = some (existing_nodes.get ⟨i, hilt⟩) :=
      List.get?_eq_get hilt
    have hnj : existing_nodes.get? j = some (existing_nodes.get ⟨j, hjlt⟩) :=
      List.get?_eq_get hjlt
    simp only [hni, hnj, Option.getD_some] at hgij
    have hlen : i < (existing_nodes.map (fun n => dayOf n.date)).length := by
      rw [List.length_map]
      exact hilt
    have hgetE : (existing_nodes.map (fun n => dayOf n.date))[i]?
        = (existing_nodes.map (fun n => dayOf n.date))[j]? := by
      rw [← List.get?_eq_getElem?, ← List.get?_eq_getElem?]
      rw [List.get?_map, List.get?_map, hni, hnj]
      simpa using hgij
    exact List.getElem?_inj hlen hex hgetE
  · intro a ha hafb
    obtain ⟨i, hi, hgi⟩ := List.mem_map.1 hafb
    have hpred := (List.mem_filter.1 hi).2
    simp only [decide_eq_true_eq] at hpred
    exact hpred (hgi ▸ List.elem_iff.2 ha)

/-!
## Lemmas about the grouping loop and rule iteration
-/

/-- The in-place title rewrite `event.title = actual_title` applied by
`organize_events_by_date` to events whose title contains `"@@"`. -/
def titleMutation (e : OrgEvent) : OrgEvent :=
  if 2 ≤ (pySplit e.title "@@").length then
    { e with title := (pySplit e.title "@@").headD "" }
  else e

theorem organizeLoop_post (dr : DateRange) :
    ∀ (evs : List OrgEvent) (emap : List (Nat × List OrgEvent)) (post : List OrgEvent)
      {out : List (Nat × List OrgEvent) × List OrgEvent},
      organizeLoop dr evs emap post = .ok out →
      out.2 = post ++ evs.map titleMutation := by
  intro evs
  induction evs with
  | nil =>
    intro emap post out h
    rw [organizeLoop] at h
    injection h with h
    rw [← h]
    simp
  | cons a rest ih =>
    intro emap post out h
    simp only [organizeLoop] at h
    by_cases hp : 2 ≤ (pySplit a.title "@@").length
    · rw [if_pos hp] at h
      cases hpi : parseIso ((pySplit a.title "@@").getD 1 "") with
      | none => rw [hpi] at h; exact Except.noConfusion h
      | some dt =>
        rw [hpi] at h
        rw [ih _ _ h, List.map_cons, List.append_assoc]
        simp [titleMutation, hp]
    · rw [if_neg hp] at h
      rw [ih _ _ h, List.map_cons, List.append_assoc]
      simp [titleMutation, hp]

theorem addMap_preserve (k' : Nat) (e' : OrgEvent) {k : Nat} {e : OrgEvent} :
    ∀ {m : List (Nat × List OrgEvent)} {l : List OrgEvent},
      (k, l) ∈ m → e ∈ l → ∃ l', (k, l') ∈ addMap m k' e' ∧ e ∈ l' := by
  intro m
  induction m with
  | nil => intro l hmem _; simp at hmem
  | cons p rest ih =>
    intro l hmem he
    obtain ⟨k0, l0⟩ := p
    rw [addMap]
    by_cases hk : k0 = k'
    · rw [if_pos hk]
      rcases List.mem_cons.1 hmem with heq | hmem2
      · rw [Prod.mk.injEq] at heq
        obtain ⟨rfl, rfl⟩ := heq
        exact ⟨l ++ [e'], List.mem_cons_self _ _, List.mem_append_left _ he⟩
      · exact ⟨l, List.mem_cons_of_mem _ hmem2, he⟩
    · rw [if_neg hk]
      rcases List.mem_cons.1 hmem with heq | hmem2
      · exact ⟨l, List.mem_cons.2 (Or.inl heq), he⟩
      · obtain ⟨l', h1, h2⟩ := ih hmem2 he
        exact ⟨l', List.mem_cons_of_mem _ h1, h2⟩

theorem addMap_self (k : Nat) (e : OrgEvent) :
    ∀ m, ∃ l', (k, l') ∈ addMap m k e ∧ e ∈ l' := by
  intro m
  induction m with
  | nil =>
    exact ⟨[e], List.mem_singleton.2 rfl, List.mem_singleton.2 rfl⟩
  | cons p rest ih =>
    obtain ⟨k0, l0⟩ := p
    rw [addMap]
    by_cases hk : k0 = k
    · subst hk
      rw [if_pos rfl]
      exact ⟨l0 ++ [e], List.mem_cons_self _ _,
        List.mem_append_right _ (List.mem_singleton.2 rfl)⟩
    · rw [if_neg hk]
      obtain ⟨l', h1, h2⟩ := ih
      exact ⟨l', List.mem_cons_of_mem _ h1, h2⟩

/-- Loop invariant for the fallback grouping: an event without `"@@"` in
its title, once seen (or already grouped), ends up grouped under
`date_range.start_date.date()`. -/
theorem organizeLoop_mem (dr : DateRange) (e : OrgEvent)
    (hno : (pySplit e.title "@@").length < 2) :
    ∀ (evs : List OrgEvent) (emap : List (Nat × List OrgEvent)) (post : List OrgEvent)
      {out : List (Nat × List OrgEvent) × List OrgEvent},
      organizeLoop dr evs emap post = .ok out →
      (e ∈ evs ∨ ∃ l, (dayOf dr.start_date, l) ∈ emap ∧ e ∈ l) →
      ∃ l, (dayOf dr.start_date, l) ∈ out.1 ∧ e ∈ l := by
  intro evs
  induction evs with
  | nil =>
    intro emap post out h hin
    rw [organizeLoop] at h
    injection h with h
    rcases hin with h1 | h2
    · simp at h1
    · rw [← h]; exact h2
  | cons a rest ih =>
    intro emap post out h hin
    simp only [organizeLoop] at h
    by_cases hp : 2 ≤ (pySplit a.title "@@").length
    · rw [if_pos hp] at h
      cases hpi : parseIso ((pySplit a.title "@@").getD 1 "") with
      | none => rw [hpi] at h; exact Except.noConfusion h
      | some dt =>
        rw [hpi] at h
        apply ih _ _ h
        rcases hin with h1 | h2
        · rcases List.mem_cons.1 h1 with rfl | h1'
          · exact absurd hp (by omega)
          · exact Or.inl h1'
        · obtain ⟨l, hl, hel⟩ := h2
          exact Or.inr (addMap_preserve _ _ hl hel)
    · rw [if_neg hp] at h
      apply ih _ _ h
      rcases hin with h1 | h2
      · rcases List.mem_cons.1 h1 with rfl | h1'
        · exact Or.inr (addMap_self _ _ emap)
        · exact Or.inl h1'
      · obtain ⟨l, hl, hel⟩ := h2
        exact Or.inr (addMap_preserve _ _ hl hel)

/-- The per-rule loop of `generate_all_events` re-raises the first error. -/
theorem generateAllLoop_error (dr : DateRange) (tds : String) (bad : EventRule)
    (rest : List EventRule) (eb : PyErr)
    (hbad : generate_events_for_rule bad dr tds = .error eb) :
    ∀ (pre : List EventRule) (acc : List OrgEvent),
      (∀ r ∈ pre, ∃ evs, generate_events_for_rule r dr tds = .ok evs) →
      generateAllLoop dr tds (pre ++ bad :: rest) acc = .error eb := by
  intro pre
  induction pre with
  | nil =>
    intro acc _
    rw [List.nil_append, generateAllLoop]
    simp only [hbad]
  | cons r pre ih =>
    intro acc hpre
    obtain ⟨evs, hevs⟩ := hpre r (List.mem_cons_self r pre)
    rw [List.cons_append, generateAllLoop]
    simp only [hevs]
    exact ih _ (fun r' hr' => hpre r' (List.mem_cons_of_mem _ hr'))

/-!
## Order theory for the string comparison used by the renderer
-/

theorem chLt_irrefl : ∀ l : List Char, chLt l l = false := by
  intro l
  induction l with
  | nil => rfl
  | cons c cs ih => simp [chLt, ih]

theorem chLt_trans :
    ∀ {a b c : List Char}, chLt a b = true → chLt b c = true → chLt a c = true := by
  intro a
  induction a with
  | nil =>
    intro b c hab hbc
    cases b with
    | nil => simp [chLt] at hab
    | cons y ys =>
      cases c with
      | nil => simp [chLt] at hbc
      | cons z zs => rfl
  | cons x xs ih =>
    intro b c hab hbc
    cases b with
    | nil => simp [chLt] at hab
    | cons y ys =>
      cases c with
      | nil => simp [chLt] at hbc
      | cons z zs =>
        simp only [chLt, Bool.or_eq_true, decide_eq_true_eq, Bool.and_eq_true] at hab hbc ⊢
        rcases hab with h1 | ⟨h1, h1'⟩
        · rcases hbc with h2 | ⟨h2, h2'⟩
          · exact Or.inl (lt_trans h1 h2)
          · subst h2
            exact Or.inl h1
        · subst h1
          rcases hbc with h2 | ⟨h2, h2'⟩
          · exact Or.inl h2
          · subst h2
            exact Or.inr ⟨rfl, ih h1' h2'⟩

theorem chLt_antisymm :
    ∀ {a b : List Char}, chLt a b = false → chLt b a = false → a = b := by
  intro a
  induction a with
  | nil =>
    intro b hab _
    cases b with
    | nil => rfl
    | cons y ys => simp [chLt] at hab
  | cons x xs ih =>
    intro b hab hba
    cases b with
    | nil => simp [chLt] at hba
    | cons y ys =>
      rw [chLt] at hab hba
      simp only [Bool.or_eq_false_iff, Bool.and_eq_false_iff,
        decide_eq_false_iff_not] at hab hba
      have hxy : x = y := by
        have h1 : ¬ x.toNat < y.toNat := hab.1
        have h2 : ¬ y.toNat < x.toNat := hba.1
        have h3 : x.toNat = y.toNat := by omega
        exact Char.ext (UInt32.ext h3)
      subst hxy
      rcases hab.2 with h | h
      · simp at h
      · rcases hba.2 with h' | h'
        · simp at h'
        · rw [ih h h']

theorem strLtB_irrefl (s : String) : strLtB s s = false := chLt_irrefl _

theorem strLtB_trans {s t u : String} (h1 : strLtB s t = true) (h2 : strLtB t u = true) :
    strLtB s u = true := chLt_trans h1 h2

theorem strEq_of_toList {s t : String} (h : s.toList = t.toList) : s = t := by
  cases s with
  | mk d1 =>
    cases t with
    | mk d2 =>
      have hd : d1 = d2 := h
      rw [hd]

theorem strLtB_antisymm {s t : String} (h1 : strLtB s t = false) (h2 : strLtB t s = false) :
    s = t := strEq_of_toList (chLt_antisymm h1 h2)

instance : IsTrans (String × String) keyLe := by
  refine ⟨fun a b c hab hbc => ?_⟩
  rcases hab with h1 | ⟨h1, h1'⟩
  · rcases hbc with h2 | ⟨h2, h2'⟩
    · exact Or.inl (strLtB_trans h1 h2)
    · exact Or.inl (h2 ▸ h1)
  · rcases hbc with h2 | ⟨h2, h2'⟩
    · exact Or.inl (h1 ▸ h2)
    · refine Or.inr ⟨h1.trans h2, ?_⟩
      simp only [strLeB, Bool.or_eq_true, beq_iff_eq] at h1' h2' ⊢
      rcases h1' with h1' | h1'
      · rcases h2' with h2' | h2'
        · exact Or.inl (strLtB_trans h1' h2')
        · exact Or.inl (h2' ▸ h1')
      · exact h1' ▸ h2'

instance : IsTotal (String × String) keyLe := by
  refine ⟨fun a b => ?_⟩
  cases hf : strLtB a.1 b.1 with
  | true => exact Or.inl (Or.inl hf)
  | false =>
    cases hb : strLtB b.1 a.1 with
    | true => exact Or.inr (Or.inl hb)
    | false =>
      have h1 : a.1 = b.1 := strLtB_antisymm hf hb
      cases hf2 : strLtB a.2 b.2 with
      | true => exact Or.inl (Or.inr ⟨h1, by simp [strLeB, hf2]⟩)
      | false =>
        cases hb2 : strLtB b.2 a.2 with
        | true => exact Or.inr (Or.inr ⟨h1.symm, by simp [strLeB, hb2]⟩)
        | false =>
          have h2 : a.2 = b.2 := strLtB_antisymm hf2 hb2
          exact Or.inl (Or.inr ⟨h1, by simp [strLeB, h2]⟩)

/-- Antisymmetry step: a `keyLe` between distinct keys is a `keyLt`. -/
theorem keyLt_of_keyLe_ne {a b : String × String} (h : keyLe a b) (hne : a ≠ b) :
    keyLt a b := by
  rcases h with h1 | ⟨h1, h2⟩
  · exact Or.inl h1
  · simp only [strLeB, Bool.or_eq_true, beq_iff_eq] at h2
    rcases h2 with h2 | h2
    · exact Or.inr ⟨h1, h2⟩
    · exact absurd (Prod.ext h1 h2) hne

/-!
## Lemmas about the renderer grouping
-/

theorem addGroup_inv {k0 : String × String} {n : OrgDateNode}
    (hkey : (n.year, n.week) = k0) :
    ∀ {m}, (∀ p ∈ m, ∀ nd ∈ p.2, (nd.year, nd.week) = p.1) →
      ∀ p ∈ addGroup m k0 n, ∀ nd ∈ p.2, (nd.year, nd.week) = p.1 := by
  intro m
  induction m with
  | nil =>
    intro _ p hp nd hnd
    simp [addGroup] at hp
    subst hp
    simp at hnd
    subst hnd
    exact hkey
  | cons q rest ih =>
    intro hinv p hp nd hnd
    obtain ⟨kq, lq⟩ := q
    rw [addGroup] at hp
    by_cases hk : kq = k0
    · rw [if_pos hk] at hp
      rcases List.mem_cons.1 hp with heq | hp'
      · subst heq
        rcases List.mem_append.1 hnd with h | h
        · exact hinv (kq, lq) (List.mem_cons_self _ _) nd h
        · simp at h
          subst h
          rw [hkey, hk]
      · exact hinv p (List.mem_cons_of_mem _ hp') nd hnd
    · rw [if_neg hk] at hp
      rcases List.mem_cons.1 hp with heq | hp'
      · subst heq
        exact hinv (kq, lq) (List.mem_cons_self _ _) nd hnd
      · exact ih (fun q hq => hinv q (List.mem_cons_of_mem _ hq)) p hp' nd hnd

theorem buildGroups_inv (date_nodes : List OrgDateNode) :
    ∀ p ∈ buildGroups date_nodes, ∀ nd ∈ p.2, (nd.year, nd.week) = p.1 := by
  have haux : ∀ (nodes : List OrgDateNode) (m),
      (∀ p ∈ m, ∀ nd ∈ p.2, (nd.year, nd.week) = p.1) →
      ∀ p ∈ nodes.foldl (fun m n => addGroup m (n.year, n.week) n) m,
        ∀ nd ∈ p.2, (nd.year, nd.week) = p.1 := by
    intro nodes
    induction nodes with
    | nil => intro m hm; exact hm
    | cons n rest ih =>
      intro m hm
      exact ih _ (addGroup_inv rfl hm)
  exact haux date_nodes [] (by simp)

theorem addGroup_keys (k : String × String) (n : OrgDateNode) :
    ∀ m, (addGroup m k n).map Prod.fst
      = if k ∈ m.map Prod.fst then m.map Prod.fst else m.map Prod.fst ++ [k] := by
  intro m
  induction m with
  | nil => simp [addGroup]
  | cons q rest ih =>
    obtain ⟨kq, lq⟩ := q
    rw [addGroup]
    by_cases hk : kq = k
    · subst hk
      rw [if_pos rfl]
      simp
    · rw [if_neg hk]
      by_cases hmem : k ∈ rest.map Prod.fst
      · have hmem2 : k ∈ (((kq, lq) :: rest).map Prod.fst) := by simp [hmem]
        rw [if_pos hmem2]
        simp only [List.map_cons]
        rw [ih, if_pos hmem]
      · have hne : k ∉ ((kq, lq) :: rest).map Prod.fst := by
          simp only [List.map_cons, List.mem_cons]
          push_neg
          exact ⟨fun h => hk h.symm, hmem⟩
        rw [if_neg hne]
        simp only [List.map_cons]
        rw [ih, if_neg hmem]
        simp

theorem buildGroups_keys_nodup (date_nodes : List OrgDateNode) :
    ((buildGroups date_nodes).map Prod.fst).Nodup := by
  have haux : ∀ (nodes : List OrgDateNode) (m),
      (m.map Prod.fst).Nodup →
      ((nodes.foldl (fun m n => addGroup m (n.year, n.week) n) m).map Prod.fst).Nodup := by
    intro nodes
    induction nodes with
    | nil => intro m hm; exact hm
    | cons n rest ih =>
      intro m hm
      apply ih
      rw [addGroup_keys]
      by_cases hmem : (n.year, n.week) ∈ m.map Prod.fst
      · rw [if_pos hmem]; exact hm
      · rw [if_neg hmem]
        rw [List.nodup_append]
        exact ⟨hm, List.nodup_singleton _, by
          intro a ha hb
          simp at hb
          subst hb
          exact hmem ha⟩
  exact haux date_nodes [] (by simp)

theorem groupsLookup_eq :
    ∀ {groups : List ((String × String) × List OrgDateNode)},
      ((groups.map Prod.fst).Nodup) →
      ∀ {k l}, (k, l) ∈ groups → groupsLookup groups k = l := by
  intro groups
  induction groups with
  | nil => intro _ k l hmem; simp at hmem
  | cons q rest ih =>
    intro hnd k l hmem
    obtain ⟨kq, lq⟩ := q
    rcases List.mem_cons.1 hmem with heq | hmem'
    · rw [Prod.mk.injEq] at heq
      obtain ⟨h1, rfl⟩ := heq
      subst h1
      rw [groupsLookup, List.find?_cons_of_pos _ (by simp)]
    · have hk : kq ≠ k := by
        rintro rfl
        have : kq ∈ rest.map Prod.fst :=
          List.mem_map.2 ⟨(kq, l), hmem', rfl⟩
        exact (List.nodup_cons.1 (by simpa using hnd)).1 this
      rw [groupsLookup, List.find?_cons_of_neg _ (by simp [hk])]
      have := ih (List.nodup_cons.1 (by simpa using hnd)).2 hmem'
      rw [groupsLookup] at this
      exact this

theorem addGroup_flatten (k : String × String) (n : OrgDateNode) :
    ∀ m, List.Perm (((addGroup m k n).map Prod.snd).flatten)
      (((m.map Prod.snd).flatten) ++ [n]) := by
  intro m
  induction m with
  | nil => simp [addGroup]
  | cons q rest ih =>
    obtain ⟨kq, lq⟩ := q
    rw [addGroup]
    by_cases hk : kq = k
    · rw [if_pos hk]
      simp only [List.map_cons, List.flatten_cons, List.append_assoc]
      exact List.Perm.append_left lq List.perm_append_comm
    · rw [if_neg hk]
      simp only [List.map_cons, List.flatten_cons, List.append_assoc]
      exact ih.append_left lq

theorem buildGroups_flatten (date_nodes : List OrgDateNode) :
    List.Perm (((buildGroups date_nodes).map Prod.snd).flatten) date_nodes := by
  have haux : ∀ (nodes : List OrgDateNode) (m),
      List.Perm (((nodes.foldl (fun m n => addGroup m (n.year, n.week) n) m).map
        Prod.snd).flatten) (((m.map Prod.snd).flatten) ++ nodes) := by
    intro nodes
    induction nodes with
    | nil => intro m; simp
    | cons n rest ih =>
      intro m
      refine (ih _).trans ?_
      refine ((addGroup_flatten _ n m).append_right rest).trans ?_
      rw [List.append_assoc]
      exact List.Perm.refl _
  have := haux date_nodes []
  simpa using this

/-!
## Claim theorems
-/

/-- C3.  Expansion ordering and boundedness: whenever
`generate_events_for_rule` succeeds on an interval with `start ≤ end`, the
instants of the emitted occurrences (the loop's `current_date`, kept as the
first pair component of the instrumented loop, and smuggled into each title
as `"…@@isoformat"`) are strictly increasing — in particular non-decreasing
— and every instant lies in the closed interval
`[start_date, end_date]`; the plain `generate_events_for_rule` output is
the second components of the same list. -/
theorem C3_expansion_ordered_and_bounded (rule : EventRule) (dr : DateRange) (tds : String)
    (l : List (Nat × OrgEvent))
    (_hse : dr.start_date ≤ dr.end_date)
    (hok : generate_events_for_rule_pairs rule dr tds = .ok l) :
    List.Pairwise (fun a b : Nat × OrgEvent => a.1 < b.1) l
    ∧ (∀ p ∈ l, dr.start_date ≤ p.1 ∧ p.1 ≤ dr.end_date)
    ∧ generate_events_for_rule rule dr tds = .ok (l.map Prod.snd) := by
  have hmap : generate_events_for_rule rule dr tds = .ok (l.map Prod.snd) := by
    unfold generate_events_for_rule
    rw [hok]
    rfl
  unfold generate_events_for_rule_pairs at hok
  cases hp : parseCron rule.cron with
  | error m => simp only [hp] at hok; exact Except.noConfusion hok
  | ok e =>
    simp only [hp] at hok
    cases hn : getNext e dr.start_date with
    | none => simp only [hn] at hok; exact Except.noConfusion hok
    | some c0 =>
      simp only [hn, Except.ok.injEq] at hok
      subst hok
      obtain ⟨hb, hp2⟩ := genLoopPairs_sound e rule dr tds _ c0 []
        (by simp) (by simp) (by simp)
      exact ⟨hp2, hb, hmap⟩

/-- The concrete expansion of rule `"* * * * *"` over the two-minute
interval `[0, 120]`: occurrences at instants 60 and 120. -/
def C3L0 : List (Nat × OrgEvent) :=
  [(60, ⟨"T@@0001-01-01T00:01:00", 4, some "TODO", [], none⟩),
   (120, ⟨"T@@0001-01-01T00:02:00", 4, some "TODO", [], none⟩)]

/-- Witness for C3 at a concrete rule and interval. -/
theorem C3_expansion_witness :
    List.Pairwise (fun a b : Nat × OrgEvent => a.1 < b.1) C3L0
    ∧ (∀ p ∈ C3L0, (0 : Nat) ≤ p.1 ∧ p.1 ≤ 120)
    ∧ generate_events_for_rule { title := "T", cron := "* * * * *" }
        { start_date := 0, end_date := 120 } "TODO" = .ok (C3L0.map Prod.snd) :=
  C3_expansion_ordered_and_bounded { title := "T", cron := "* * * * *" }
    { start_date := 0, end_date := 120 } "TODO" C3L0 (by decide) (by rfl)

/-- C4 (amended).  The ceiling check `if len(events) > 10000: break` runs
after the append, so the loop emits at most 10,001 occurrences (not
10,000). -/
theorem C4_ceiling_10001 (rule : EventRule) (dr : DateRange) (tds : String)
    (evs : List OrgEvent)
    (hok : generate_events_for_rule rule dr tds = .ok evs) :
    evs.length ≤ 10001 := by
  unfold generate_events_for_rule at hok
  cases hpq : generate_events_for_rule_pairs rule dr tds with
  | error err => rw [hpq] at hok; simp [Except.map] at hok
  | ok l =>
    rw [hpq] at hok
    simp only [Except.map, Except.ok.injEq] at hok
    subst hok
    rw [List.length_map]
    unfold generate_events_for_rule_pairs at hpq
    cases hp : parseCron rule.cron with
    | error m => simp only [hp] at hpq; exact Except.noConfusion hpq
    | ok e =>
      simp only [hp] at hpq
      cases hn : getNext e dr.start_date with
      | none => simp only [hn] at hpq; exact Except.noConfusion hpq
      | some c0 =>
        simp only [hn, Except.ok.injEq] at hpq
        subst hpq
        exact genLoopPairs_length_le e rule dr tds _ c0 [] (by simp)

/-- Witness for the amended C4 at a concrete rule and interval. -/
theorem C4_ceiling_witness : (C3L0.map Prod.snd).length ≤ 10001 :=
  C4_ceiling_10001 { title := "T", cron := "* * * * *" }
    { start_date := 0, end_date := 120 } "TODO" (C3L0.map Prod.snd) (by rfl)

/-- C4 counterexample.  An every-minute rule over the interval
`[0, 600060]` (600060 = 60 · 10001 + 600 · 60 of room) emits exactly
10,001 occurrences — one more than the claimed hard ceiling of 10,000. -/
theorem C4_emits_10001_occurrences :
    (generate_events_for_rule { title := "T", cron := "* * * * *" }
        { start_date := 0, end_date := 600060 } "TODO").map List.length
      = .ok 10001 := by
  have hp : parseCron "* * * * *" = .ok starCron := by rfl
  have hn : getNext starCron 0 = some 60 := by rw [getNext_star]
  have hcount :
      (genLoopPairs starCron { title := "T", cron := "* * * * *" }
        { start_date := 0, end_date := 600060 } "TODO"
        (600060 + 1 - 0) 60 []).length = 10001 :=
    genLoopPairs_star_count _ _ _ 10000 _ 60 []
      (by decide) (by decide) (by decide) (by decide) (by decide)
  unfold generate_events_for_rule generate_events_for_rule_pairs
  simp only [hp, hn, Except.map, List.length_map, Except.ok.injEq]
  omega

/-- C1.  Render/Read round-trip: the claim asserts that parsing
`render_org_content(C)` recovers every occurrence of a merged collection
`C`.  The code cannot round-trip at all: `_render_event` evaluates
`event.body`, but the `OrgEvent` dataclass declares `title`, `level`,
`todo_state`, `tags`, `description` and no `body`, so rendering any
collection containing an occurrence raises `AttributeError` (and on the
read side `_parse_event_from_node` passes `body=` to `OrgEvent`, a
`TypeError`).  This theorem evaluates the renderer at a minimal failing
input: one container holding one occurrence. -/
theorem C1_render_crashes_on_any_event :
    render_org_content
      [nodeAt dJan6 []
        [{ mkEv "Standup" with todo_state := some "TODO", tags := ["health", "exercise"] }]]
      = .error (.attributeError "body") := by rfl

/-- C2 counterexample.  The claim quantifies over every pair of inputs; when
the existing input holds two containers at the same date, the
`existing_by_date` dict keeps only the later one, so the earlier
container's existing occurrences are lost.  Here existing container one at
2025-01-06 has `existing_events = [mkEv "E1"]`, container two at the same
date has `[]`, and the merged result's only container at that date has
`existing_events = []`, not `[mkEv "E1"]`. -/
theorem C2_duplicate_date_existing_loses_occurrences :
    (merge_with_existing_nodes [nodeAt dJan6 [] []]
        [nodeAt dJan6 [mkEv "E1"] [], nodeAt dJan6 [] []]).map
      (fun n => n.existing_events) = [[]] := by rfl

/-- C6 counterexample.  When the new input itself contains two containers
sharing a date, both pass through: the result has two containers for day
number 5, violating the claimed at-most-one-per-date invariant. -/
theorem C6_duplicate_new_dates_pass_through :
    (merge_with_existing_nodes [nodeAt 5 [] [], nodeAt 5 [] []] []).map
      (fun n => dayOf n.date) = [5, 5] := by rfl

/-- C7 counterexample.  With two malformed rules, `generate_all_events`
re-raises the first rule's `ValueError` immediately: the result is the very
error produced for the first rule alone, and the second rule's error is
never reported — no aggregation happens in this function. -/
theorem C7_fails_fast_on_first_malformed_rule :
    generate_all_events [{ title := "B1", cron := "bad" }, { title := "B2", cron := "also bad" }]
        { start_date := 0, end_date := 60 } "TODO"
      = .error (.valueError
        "Invalid cron expression 'bad': Exactly 5 columns has to be specified for iterator expression.")
    ∧ generate_all_events [{ title := "B1", cron := "bad" }]
        { start_date := 0, end_date := 60 } "TODO"
      = .error (.valueError
        "Invalid cron expression 'bad': Exactly 5 columns has to be specified for iterator expression.") :=
  ⟨rfl, rfl⟩

/-- C8 counterexample.  `organize_events_by_date` is not side-effect free:
an input occurrence whose title contains `"@@"` has its title rewritten in
place (`event.title = actual_title`).  The post-call state of the input
list holds the truncated title `"A"`, not the original. -/
theorem C8_mutates_titles_with_delimiter :
    organize_events_by_date [mkEv "A@@2025-01-06T09:00:00"]
        { start_date := daysFromCivil 2025 1 1 * secPerDay,
          end_date := daysFromCivil 2025 1 31 * secPerDay }
      = .ok ([nodeAt dJan6 [] [mkEv "A"]], [mkEv "A"])
    ∧ mkEv "A" ≠ mkEv "A@@2025-01-06T09:00:00" := by
  refine ⟨rfl, ?_⟩
  decide

/-- C9 counterexample.  The claim names four escalating past-date tiers
(>7, >30, >90, >365 days); `_check_past_dates` has no >90 tier: a start
100 days before the current week's Monday gets the same
"more than 1 month" wording as one 40 days back. -/
theorem C9_no_ninety_day_tier :
    mkDateRange now0 ((daysFromCivil 2025 10 6 - 100) * secPerDay)
        (daysFromCivil 2025 10 8 * secPerDay)
      = .ok { start_date := (daysFromCivil 2025 10 6 - 100) * secPerDay,
              end_date := daysFromCivil 2025 10 8 * secPerDay,
              warnings := ["Generating events for dates more than 1 month in the past (100 days ago)"] }
    ∧ mkDateRange now0 ((daysFromCivil 2025 10 6 - 40) * secPerDay)
        (daysFromCivil 2025 10 8 * secPerDay)
      = .ok { start_date := (daysFromCivil 2025 10 6 - 40) * secPerDay,
              end_date := daysFromCivil 2025 10 8 * secPerDay,
              warnings := ["Generating events for dates more than 1 month in the past (40 days ago)"] } :=
  ⟨rfl, rfl⟩

/-- Witness for the amended C2 at concrete inputs: one new container and
one existing container on the same date (day 7). -/
theorem C2_merge_preserves_witness :
    (∃ node ∈ merge_with_existing_nodes [nodeAt 7 [] [mkEv "N"]] [nodeAt 7 [mkEv "E"] []],
        node.date = (nodeAt 7 [mkEv "E"] []).date
        ∧ node.existing_events = (nodeAt 7 [mkEv "E"] []).existing_events)
    ∧ ∀ node ∈ merge_with_existing_nodes [nodeAt 7 [] [mkEv "N"]] [nodeAt 7 [mkEv "E"] []],
        dayOf node.date = dayOf (nodeAt 7 [mkEv "E"] []).date →
        node.existing_events = (nodeAt 7 [mkEv "E"] []).existing_events :=
  C2_merge_preserves_existing_of_nodup_dates [nodeAt 7 [] [mkEv "N"]]
    [nodeAt 7 [mkEv "E"] []] (nodeAt 7 [mkEv "E"] []) (by decide) (by decide)

/-- Witness for the amended C6 at concrete inputs. -/
theorem C6_unique_dates_witness :
    ((merge_with_existing_nodes [nodeAt 5 [] [mkEv "N"]]
        [nodeAt 5 [mkEv "E"] [], nodeAt 6 [] []]).map (fun n => dayOf n.date)).Nodup :=
  C6_unique_dates_of_nodup_inputs [nodeAt 5 [] [mkEv "N"]]
    [nodeAt 5 [mkEv "E"] [], nodeAt 6 [] []] (by decide) (by decide)

/-- C7 (amended).  `generate_all_events` does not aggregate rule errors:
with any prefix of well-formed rules followed by a malformed rule,
the function re-raises exactly that first malformed rule's error,
regardless of how many further (possibly malformed) rules follow. -/
theorem C7_first_error_propagates (pre : List EventRule) (bad : EventRule)
    (rest : List EventRule) (dr : DateRange) (tds : String) (eb : PyErr)
    (hpre : ∀ r ∈ pre, ∃ evs, generate_events_for_rule r dr tds = .ok evs)
    (hbad : generate_events_for_rule bad dr tds = .error eb) :
    generate_all_events (pre ++ bad :: rest) dr tds = .error eb :=
  generateAllLoop_error dr tds bad rest eb hbad pre [] hpre

/-- Witness for the amended C7: a good rule, then two malformed ones; the
reported error is the first malformed rule's. -/
theorem C7_first_error_witness :
    generate_all_events [{ title := "G", cron := "* * * * *" },
        { title := "B1", cron := "nope" }, { title := "B2", cron := "also bad" }]
      { start_date := 0, end_date := 60 } "TODO"
      = .error (.valueError "Invalid cron expression 'nope': Exactly 5 columns has to be specified for iterator expression.") :=
  C7_first_error_propagates [{ title := "G", cron := "* * * * *" }]
    { title := "B1", cron := "nope" } [{ title := "B2", cron := "also bad" }]
    { start_date := 0, end_date := 60 } "TODO" _
    (by
      intro r hr
      rw [List.mem_singleton] at hr
      subst hr
      exact ⟨_, rfl⟩)
    (by rfl)

/-- C8 (amended).  `organize_events_by_date` mutates exactly the titles
containing `"@@"` (truncating at the delimiter); events without the
delimiter are untouched, and no other field of any event ever changes. -/
theorem C8_mutation_exactly_titles (events : List OrgEvent) (dr : DateRange)
    (nodes : List OrgDateNode) (post : List OrgEvent)
    (hok : organize_events_by_date events dr = .ok (nodes, post)) :
    post = events.map titleMutation
    ∧ (∀ e ∈ events, (pySplit e.title "@@").length < 2 → titleMutation e = e)
    ∧ (∀ e : OrgEvent, (titleMutation e).level = e.level
        ∧ (titleMutation e).todo_state = e.todo_state
        ∧ (titleMutation e).tags = e.tags
        ∧ (titleMutation e).description = e.description) := by
  refine ⟨?_, ?_, ?_⟩
  · unfold organize_events_by_date at hok
    cases hloop : organizeLoop dr events [] [] with
    | error err => simp only [hloop] at hok; exact Except.noConfusion hok
    | ok out =>
      obtain ⟨emap2, post2⟩ := out
      simp only [hloop] at hok
      injection hok with hok
      rw [Prod.mk.injEq] at hok
      rw [← hok.2]
      simpa using organizeLoop_post dr events [] [] hloop
  · intro e _ h2
    rw [titleMutation, if_neg (by omega)]
  · intro e
    by_cases h : 2 ≤ (pySplit e.title "@@").length <;> simp [titleMutation, h]

/-- Witness for the amended C8 at concrete inputs: the delimited title is
truncated, the plain title is untouched. -/
theorem C8_mutation_witness :
    ([mkEv "A", mkEv "B"] : List OrgEvent)
        = [mkEv "A@@2025-01-06T09:00:00", mkEv "B"].map titleMutation
    ∧ (∀ e ∈ ([mkEv "A@@2025-01-06T09:00:00", mkEv "B"] : List OrgEvent),
        (pySplit e.title "@@").length < 2 → titleMutation e = e)
    ∧ (∀ e : OrgEvent, (titleMutation e).level = e.level
        ∧ (titleMutation e).todo_state = e.todo_state
        ∧ (titleMutation e).tags = e.tags
        ∧ (titleMutation e).description = e.description) :=
  C8_mutation_exactly_titles [mkEv "A@@2025-01-06T09:00:00", mkEv "B"]
    { start_date := 0, end_date := 60 }
    [nodeAt 0 [] [mkEv "B"], nodeAt dJan6 [] [mkEv "A"]] [mkEv "A", mkEv "B"] (by rfl)

set_option maxRecDepth 2048 in
/-- C10.  An occurrence whose title has no `"@@"` delimiter is grouped
under the calendar date of `date_range.start_date`, regardless of the
instant it was computed for. -/
theorem C10_no_delimiter_falls_back_to_start (events : List OrgEvent) (dr : DateRange)
    (nodes : List OrgDateNode) (post : List OrgEvent) (e : OrgEvent)
    (hmem : e ∈ events) (hno : (pySplit e.title "@@").length < 2)
    (hok : organize_events_by_date events dr = .ok (nodes, post)) :
    ∃ n ∈ nodes, n.date = dayOf dr.start_date * secPerDay ∧ e ∈ n.new_events := by
  unfold organize_events_by_date at hok
  cases hloop : organizeLoop dr events [] [] with
  | error err => simp only [hloop] at hok; exact Except.noConfusion hok
  | ok out =>
    obtain ⟨emap2, post2⟩ := out
    simp only [hloop] at hok
    injection hok with hok
    rw [Prod.mk.injEq] at hok
    obtain ⟨l, hl, hel⟩ := organizeLoop_mem dr e hno events [] [] hloop (Or.inl hmem)
    have hl2 : (dayOf dr.start_date, l) ∈ List.insertionSort entryKeyLe emap2 :=
      (List.perm_insertionSort entryKeyLe emap2).mem_iff.2 hl
    refine ⟨⟨dayOf dr.start_date * secPerDay, [], l⟩, ?_, rfl, hel⟩
    rw [← hok.1]
    exact List.mem_map.2 ⟨(dayOf dr.start_date, l), hl2, rfl⟩

/-- Witness for C10 at a concrete input. -/
theorem C10_fallback_witness :
    ∃ n ∈ [nodeAt 0 [] [mkEv "NoDelim"]],
      n.date = dayOf (100 : Nat) * secPerDay ∧ mkEv "NoDelim" ∈ n.new_events :=
  C10_no_delimiter_falls_back_to_start [mkEv "NoDelim"] { start_date := 100, end_date := 7777 }
    [nodeAt 0 [] [mkEv "NoDelim"]] [mkEv "NoDelim"] (mkEv "NoDelim")
    (by decide) (by decide) (by rfl)

/-- C9 (amended).  For an interval starting before the Monday of the
current week (and not reaching past one year into the future, so the
future check is silent), construction succeeds and appends exactly one
advisory past-date warning, whose wording escalates through the three
tiers >7 days, >30 days and >365 days (plus a base wording up to 7 days);
there is no 90-day tier. -/
theorem C9_past_warning_tiers (now s e : Nat)
    (hse : s ≤ e)
    (hpast : s < weekStartOf now)
    (hfut : checkFutureDates now e = .ok []) :
    ∃ dr, mkDateRange now s e = .ok dr
      ∧ dr.start_date = s ∧ dr.end_date = e
      ∧ dr.warnings.length = 1
      ∧ (365 < (weekStartOf now - s) / secPerDay →
          dr.warnings = ["Generating events for dates more than 1 year in the past ("
            ++ toString ((weekStartOf now - s) / secPerDay) ++ " days ago)"])
      ∧ (30 < (weekStartOf now - s) / secPerDay ∧ (weekStartOf now - s) / secPerDay ≤ 365 →
          dr.warnings = ["Generating events for dates more than 1 month in the past ("
            ++ toString ((weekStartOf now - s) / secPerDay) ++ " days ago)"])
      ∧ (7 < (weekStartOf now - s) / secPerDay ∧ (weekStartOf now - s) / secPerDay ≤ 30 →
          dr.warnings = ["Generating events for dates more than 1 week in the past ("
            ++ toString ((weekStartOf now - s) / secPerDay) ++ " days ago)"])
      ∧ ((weekStartOf now - s) / secPerDay ≤ 7 →
          dr.warnings = ["Generating events for past dates ("
            ++ toString ((weekStartOf now - s) / secPerDay) ++ " days ago)"]) := by
  have hwp : checkPastDates now s =
      if 365 < (weekStartOf now - s) / secPerDay then
        ["Generating events for dates more than 1 year in the past ("
          ++ toString ((weekStartOf now - s) / secPerDay) ++ " days ago)"]
      else if 30 < (weekStartOf now - s) / secPerDay then
        ["Generating events for dates more than 1 month in the past ("
          ++ toString ((weekStartOf now - s) / secPerDay) ++ " days ago)"]
      else if 7 < (weekStartOf now - s) / secPerDay then
        ["Generating events for dates more than 1 week in the past ("
          ++ toString ((weekStartOf now - s) / secPerDay) ++ " days ago)"]
      else
        ["Generating events for past dates ("
          ++ toString ((weekStartOf now - s) / secPerDay) ++ " days ago)"] := by
    rw [checkPastDates, if_pos hpast]
  refine ⟨⟨s, e, checkPastDates now s⟩, ?_, rfl, rfl, ?_, ?_, ?_, ?_, ?_⟩
  · unfold mkDateRange
    rw [if_neg (by omega)]
    show (checkFutureDates now e).bind _ = _
    rw [hfut]
    show Except.ok (DateRange.mk s e (checkPastDates now s ++ []))
      = Except.ok (DateRange.mk s e (checkPastDates now s))
    rw [List.append_nil]
  · rw [hwp]
    split_ifs <;> rfl
  · intro h
    rw [hwp, if_pos h]
  · intro h
    rw [hwp, if_neg (by omega), if_pos h.1]
  · intro h
    rw [hwp, if_neg (by omega), if_neg (by omega), if_pos h.1]
  · intro h
    rw [hwp, if_neg (by omega), if_neg (by omega), if_neg (by omega)]

/-- Witness for the amended C9: start 10 days before the Monday of the
current week (2025-10-06), now 2025-10-08 01:00, end 2025-10-08. -/
theorem C9_past_warning_witness :
    ∃ dr, mkDateRange now0 ((daysFromCivil 2025 10 6 - 10) * secPerDay)
        (daysFromCivil 2025 10 8 * secPerDay) = .ok dr
      ∧ dr.start_date = (daysFromCivil 2025 10 6 - 10) * secPerDay
      ∧ dr.end_date = daysFromCivil 2025 10 8 * secPerDay
      ∧ dr.warnings.length = 1
      ∧ (365 < (weekStartOf now0 - (daysFromCivil 2025 10 6 - 10) * secPerDay) / secPerDay →
          dr.warnings = ["Generating events for dates more than 1 year in the past ("
            ++ toString ((weekStartOf now0 - (daysFromCivil 2025 10 6 - 10) * secPerDay) / secPerDay) ++ " days ago)"])
      ∧ (30 < (weekStartOf now0 - (daysFromCivil 2025 10 6 - 10) * secPerDay) / secPerDay
          ∧ (weekStartOf now0 - (daysFromCivil 2025 10 6 - 10) * secPerDay) / secPerDay ≤ 365 →
          dr.warnings = ["Generating events for dates more than 1 month in the past ("
            ++ toString ((weekStartOf now0 - (daysFromCivil 2025 10 6 - 10) * secPerDay) / secPerDay) ++ " days ago)"])
      ∧ (7 < (weekStartOf now0 - (daysFromCivil 2025 10 6 - 10) * secPerDay) / secPerDay
          ∧ (weekStartOf now0 - (daysFromCivil 2025 10 6 - 10) * secPerDay) / secPerDay ≤ 30 →
          dr.warnings = ["Generating events for dates more than 1 week in the past ("
            ++ toString ((weekStartOf now0 - (daysFromCivil 2025 10 6 - 10) * secPerDay) / secPerDay) ++ " days ago)"])
      ∧ ((weekStartOf now0 - (daysFromCivil 2025 10 6 - 10) * secPerDay) / secPerDay ≤ 7 →
          dr.warnings = ["Generating events for past dates ("
            ++ toString ((weekStartOf now0 - (daysFromCivil 2025 10 6 - 10) * secPerDay) / secPerDay) ++ " days ago)"]) :=
  C9_past_warning_tiers now0 ((daysFromCivil 2025 10 6 - 10) * secPerDay)
    (daysFromCivil 2025 10 8 * secPerDay) (by decide) (by decide) (by rfl)

/-- C5 counterexample.  Containers for 2025-01-06 and 2025-12-29: the
December date falls in ISO week 01 and `strftime("%Y-W%V")` keys it
`"2025-W01"`, so it sorts — and renders — before the January date,
violating chronological order. -/
theorem C5_out_of_chronological_order :
    renderEmissionOrder [nodeAt dJan6 [] [], nodeAt dDec29 [] []]
      = [nodeAt dDec29 [] [], nodeAt dJan6 [] []]
    ∧ (nodeAt dJan6 [] []).date < (nodeAt dDec29 [] []).date
    ∧ render_org_content [nodeAt dJan6 [] [], nodeAt dDec29 [] []]
      = .ok "* 2025\n** 2025-W01\n*** 2025-12-29 Mon\n** 2025-W02\n*** 2025-01-06 Mon" :=
  ⟨rfl, by decide, rfl⟩

/-- C5 (amended).  Structure of the renderer's emission order: every
container is emitted exactly once (permutation); the `(year, week)` group
keys — with `week = strftime("%Y-W%V")`, calendar year plus ISO week
number — are emitted in strictly ascending Python-tuple (lexicographic)
order; each group holds exactly the containers carrying its key; and
within a group containers are sorted ascending by date.  Chronological
correctness of the key order across ISO year boundaries is refuted by
`C5_out_of_chronological_order`. -/
theorem C5_render_order_structure (date_nodes : List OrgDateNode) :
    List.Perm (renderEmissionOrder date_nodes) date_nodes
    ∧ List.Pairwise keyLt
        (List.insertionSort keyLe ((buildGroups date_nodes).map Prod.fst))
    ∧ (∀ p ∈ buildGroups date_nodes, ∀ nd ∈ p.2, (nd.year, nd.week) = p.1)
    ∧ (∀ k, List.Sorted nodeDateLe
        (List.insertionSort nodeDateLe (groupsLookup (buildGroups date_nodes) k))) := by
  refine ⟨?_, ?_, buildGroups_inv date_nodes, fun k => List.sorted_insertionSort _ _⟩
  · unfold renderEmissionOrder
    refine (List.Perm.flatMap_right _ (List.perm_insertionSort keyLe _)).trans ?_
    refine (List.Perm.flatMap_left _
      (fun k _ => List.perm_insertionSort nodeDateLe _)).trans ?_
    have hstep3 : ((buildGroups date_nodes).map Prod.fst).flatMap
          (fun k => groupsLookup (buildGroups date_nodes) k)
        = (buildGroups date_nodes).flatMap
          (fun p => groupsLookup (buildGroups date_nodes) p.1) :=
      List.flatMap_map _ _ _
    rw [hstep3]
    have hstep4 : (buildGroups date_nodes).flatMap
          (fun p => groupsLookup (buildGroups date_nodes) p.1)
        = (buildGroups date_nodes).flatMap (fun p => p.2) := by
      rw [List.flatMap, List.flatMap]
      congr 1
      apply List.map_congr_left
      intro p hp
      obtain ⟨pk, pl⟩ := p
      exact groupsLookup_eq (buildGroups_keys_nodup date_nodes) hp
    rw [hstep4]
    have hstep5 : (buildGroups date_nodes).flatMap (fun p => p.2)
        = ((buildGroups date_nodes).map Prod.snd).flatten := by
      rw [List.flatMap]
    rw [hstep5]
    exact buildGroups_flatten date_nodes
  · have hsorted : List.Sorted keyLe
        (List.insertionSort keyLe ((buildGroups date_nodes).map Prod.fst)) :=
      List.sorted_insertionSort keyLe _
    have hnodup : (List.insertionSort keyLe ((buildGroups date_nodes).map Prod.fst)).Nodup :=
      ((List.perm_insertionSort keyLe _).nodup_iff).2 (buildGroups_keys_nodup date_nodes)
    exact (hsorted.and hnodup).imp (fun h => keyLt_of_keyLe_ne h.1 h.2)

end OrdPlan
